import Mathlib

/- Verification of the backtest execution orchestrator of this repository:
   the distributed port allocator, the market-data cache coverage and merge
   engine, the orchestrator error-handling paths, the usage ledger quota
   check and its orphan reconciliation, and the statistics extraction.

   Each section first embeds the relevant source functions as executable
   Lean definitions, translated from the TypeScript source, and then proves
   the claims about them. -/

set_option maxHeartbeats 1000000

namespace Aegra

/- ### Distributed port allocator (allocatePort / releasePort)

The allocator coordinates through Redis. A lease stores the Redis value
(the owning worker id) together with its TTL in seconds. The shared store
maps each port number to the lease currently held on it, if any. -/

/-- TTL in seconds applied on every successful acquisition (source constant
PORT_TTL_SECONDS = 600). -/
def portTtlSeconds : Nat := 600

/-- Lease record held in the shared store: the Redis value (worker id) plus
the TTL metadata attached by SET ... EX. -/
structure Lease where
  owner : String
  ttl : Nat
deriving DecidableEq

/-- Shared distributed store: port number to current lease. -/
def PortStore : Type := Nat → Option Lease

/-- Atomic Redis `SET key workerId EX ttl NX`: set only if the key is absent.
Returns whether the key was acquired, together with the updated store. This is
the single atomic operation `r.set(lockKey, workerId, 'EX', PORT_TTL_SECONDS,
'NX')` used by `allocatePort`. -/
def setnx (s : PortStore) (port : Nat) (workerId : String) : Bool × PortStore :=
  match s port with
  | some _ => (false, s)
  | none => (true, fun p => if p = port then some ⟨workerId, portTtlSeconds⟩ else s p)

/-- Scan loop of `allocatePort`: try each port by one atomic setnx, stopping at
the first acquisition. `fuel` is the number of remaining candidate ports. -/
def allocLoop (s : PortStore) (workerId : String) (port : Nat) : Nat → Option Nat × PortStore
  | 0 => (none, s)
  | fuel + 1 =>
    match setnx s port workerId with
    | (true, s2) => (some port, s2)
    | (false, s2) => allocLoop s2 workerId (port + 1) fuel

/-- Embedding of `allocatePort(portBase, portMax, workerId)`: scan the range
`[portBase, portMax]`, acquiring the first free port via atomic setnx;
`none` when the range is exhausted. -/
def allocatePort (s : PortStore) (portBase portMax : Nat) (workerId : String) :
    Option Nat × PortStore :=
  allocLoop s workerId portBase (portMax + 1 - portBase)

/-- Embedding of `releasePort(port, workerId)`: the Lua script atomically
deletes the key only when its current value equals `workerId`. The Bool is
the script result (`1` on delete). -/
def releasePort (s : PortStore) (port : Nat) (workerId : String) : Bool × PortStore :=
  match s port with
  | some lease =>
    if lease.owner = workerId then
      (true, fun p => if p = port then none else s p)
    else (false, s)
  | none => (false, s)

/-- One attempted atomic acquisition in a global interleaving: the calling
worker id and the port it probes. -/
def SetnxAttempt : Type := String × Nat

/-- Run a global interleaving of atomic setnx attempts (arbitrarily many
racing `allocatePort` calls decompose into exactly such a sequence, since
each probe is a single atomic Redis operation), keeping the attempts that
succeeded, i.e. the grants actually handed out. -/
def grantedAttempts (s : PortStore) : List SetnxAttempt → List SetnxAttempt
  | [] => []
  | e :: tr =>
    match setnx s e.2 e.1 with
    | (true, s2) => e :: grantedAttempts s2 tr
    | (false, s2) => grantedAttempts s2 tr

lemma setnx_of_held (s : PortStore) (port : Nat) (w : String) {p : Nat} {l : Lease}
    (h : s p = some l) : (setnx s port w).2 p = some l := by
  unfold setnx
  cases hs : s port with
  | some l2 => simpa using h
  | none =>
    by_cases hp : p = port
    · subst hp; rw [h] at hs; cases hs
    · simpa [hp] using h

lemma setnx_fails_of_held (s : PortStore) (port : Nat) (w : String) {l : Lease}
    (h : s port = some l) : (setnx s port w).1 = false := by
  unfold setnx; rw [h]

lemma granted_avoids_held {p : Nat} {l : Lease} :
    ∀ (tr : List SetnxAttempt) (s : PortStore), s p = some l →
      ∀ e ∈ grantedAttempts s tr, p ≠ e.2 := by
  intro tr
  induction tr with
  | nil =>
    intro s _ e he
    simp [grantedAttempts] at he
  | cons e0 tr ih =>
    intro s h e he
    unfold grantedAttempts at he
    cases hx : setnx s e0.2 e0.1 with
    | mk ok s2 =>
      rw [hx] at he
      have h2 : s2 p = some l := by
        have := setnx_of_held s e0.2 e0.1 h
        rwa [hx] at this
      cases ok with
      | true =>
        rcases List.mem_cons.mp he with rfl | hmem
        · intro hpe
          have : (setnx s e.2 e.1).1 = false := setnx_fails_of_held s e.2 e.1 (hpe ▸ h)
          rw [hx] at this
          cases this
        · exact ih s2 h2 e hmem
      | false => exact ih s2 h2 e he

lemma granted_pairwise_ports :
    ∀ (tr : List SetnxAttempt) (s : PortStore),
      (grantedAttempts s tr).Pairwise (fun e1 e2 => e1.2 ≠ e2.2) := by
  intro tr
  induction tr with
  | nil => intro s; simp [grantedAttempts]
  | cons e0 tr ih =>
    intro s
    unfold grantedAttempts
    cases hx : setnx s e0.2 e0.1 with
    | mk ok s2 =>
      cases ok with
      | true =>
        refine List.Pairwise.cons ?_ (ih s2)
        intro e he
        have hheld : s2 e0.2 = some ⟨e0.1, portTtlSeconds⟩ := by
          have : setnx s e0.2 e0.1 = (true, s2) := hx
          unfold setnx at this
          cases hs : s e0.2 with
          | some l2 => rw [hs] at this; cases this
          | none =>
            rw [hs] at this
            have := congrArg Prod.snd this
            simp only [] at this
            rw [← this]
            simp
        exact granted_avoids_held tr s2 hheld e he
      | false => exact ih s2

lemma allocLoop_some :
    ∀ (fuel : Nat) (s : PortStore) (w : String) (port p : Nat) (s2 : PortStore),
      allocLoop s w port fuel = (some p, s2) →
      s p = none ∧ s2 p = some ⟨w, portTtlSeconds⟩ := by
  intro fuel
  induction fuel with
  | zero =>
    intro s w port p s2 h
    simp [allocLoop] at h
  | succ n ih =>
    intro s w port p s2 h
    unfold allocLoop at h
    cases hs : s port with
    | some l =>
      have hsx : setnx s port w = (false, s) := by unfold setnx; rw [hs]
      rw [hsx] at h
      exact ih s w (port + 1) p s2 h
    | none =>
      have hsx : setnx s port w =
          (true, fun q => if q = port then some ⟨w, portTtlSeconds⟩ else s q) := by
        unfold setnx; rw [hs]
      rw [hsx] at h
      have h1 : some port = some p := congrArg Prod.fst h
      have hp : port = p := Option.some.inj h1
      have h2 : (fun q => if q = port then some ⟨w, portTtlSeconds⟩ else s q) = s2 :=
        congrArg Prod.snd h
      subst hp
      constructor
      · exact hs
      · rw [← h2]; simp

/-- C1: for every port range and any interleaving of concurrently racing
atomic set-if-absent probes (into which any number of racing `allocatePort`
calls decompose), no two successful grants are for the same port — so
`allocate` never yields one port to two distinct owners at the same time.
Moreover every successful `allocatePort` is produced by a single atomic
setnx with TTL: the returned port was free and is now leased to the caller
with the TTL attached. -/
theorem claim1_allocate_never_double_grants :
    (∀ (s : PortStore) (tr : List SetnxAttempt),
      (grantedAttempts s tr).Pairwise (fun e1 e2 => e1.2 ≠ e2.2))
    ∧ (∀ (s : PortStore) (portBase portMax : Nat) (w : String) (p : Nat) (s2 : PortStore),
      allocatePort s portBase portMax w = (some p, s2) →
      s p = none ∧ s2 p = some ⟨w, portTtlSeconds⟩) := by
  constructor
  · intro s tr
    exact granted_pairwise_ports tr s
  · intro s portBase portMax w p s2 h
    exact allocLoop_some (portMax + 1 - portBase) s w portBase p s2 h

/-- Witness for C1: a concrete race of three probes on an initially empty
store, and a concrete successful allocation out of the default range. -/
theorem claim1_witness :
    ((grantedAttempts (fun _ => none)
        [("workerA", 5680), ("workerB", 5680), ("workerB", 5681)]).Pairwise
      (fun e1 e2 => e1.2 ≠ e2.2))
    ∧ ((fun _ => none : PortStore) 5680 = none
      ∧ (allocatePort (fun _ => none) 5680 5780 "workerA").2 5680 =
          some ⟨"workerA", portTtlSeconds⟩) := by
  constructor
  · exact claim1_allocate_never_double_grants.1 (fun _ => none)
      [("workerA", 5680), ("workerB", 5680), ("workerB", 5681)]
  · exact claim1_allocate_never_double_grants.2 (fun _ => none) 5680 5780 "workerA"
      5680 ((allocatePort (fun _ => none) 5680 5780 "workerA").2) rfl

/-- C2: a `releasePort` by a non-owning identity is a no-op — the whole store,
hence the stored owner and TTL of the lease, is unchanged, the script reports
no deletion, and a subsequent `allocatePort` attempt on that port still fails;
and release deletes the lease only when the stored owner equals the caller. -/
theorem claim2_release_nonowner_noop :
    ∀ (s : PortStore) (port : Nat) (lease : Lease) (caller : String),
      s port = some lease → lease.owner ≠ caller →
      ((releasePort s port caller).2 = s
        ∧ (releasePort s port caller).1 = false
        ∧ (∀ w2, (allocatePort (releasePort s port caller).2 port port w2).1 = none)
        ∧ (∀ (s3 : PortStore) (w3 : String), (releasePort s3 port w3).2 port = none →
            s3 port = none ∨ ∃ l3, s3 port = some l3 ∧ l3.owner = w3)) := by
  intro s port lease caller hheld hne
  have hrel : releasePort s port caller = (false, s) := by
    unfold releasePort
    rw [hheld]
    simp [hne]
  refine ⟨by rw [hrel], by rw [hrel], ?_, ?_⟩
  · intro w2
    rw [hrel]
    show (allocLoop s w2 port (port + 1 - port)).1 = none
    have : port + 1 - port = 1 := by omega
    rw [this]
    unfold allocLoop
    have hsx : setnx s port w2 = (false, s) := by unfold setnx; rw [hheld]
    rw [hsx]
    simp [allocLoop]
  · intro s3 w3 hdel
    unfold releasePort at hdel
    cases hs3 : s3 port with
    | none => exact Or.inl rfl
    | some l3 =>
      rw [hs3] at hdel
      by_cases hw : l3.owner = w3
      · exact Or.inr ⟨l3, rfl, hw⟩
      · simp [hw] at hdel
        rw [hs3] at hdel
        cases hdel

/-- Witness for C2: releasing port 5680 held by workerA under the identity
workerB changes nothing and a re-allocation attempt on 5680 still fails. -/
theorem claim2_witness :
    ((releasePort (fun p => if p = 5680 then some ⟨"workerA", 600⟩ else none)
        5680 "workerB").2 =
      (fun p => if p = 5680 then some ⟨"workerA", 600⟩ else none))
    ∧ ((releasePort (fun p => if p = 5680 then some ⟨"workerA", 600⟩ else none)
        5680 "workerB").1 = false)
    ∧ (∀ w2, (allocatePort
        ((releasePort (fun p => if p = 5680 then some ⟨"workerA", 600⟩ else none)
          5680 "workerB").2) 5680 5680 w2).1 = none)
    ∧ (∀ (s3 : PortStore) (w3 : String), (releasePort s3 5680 w3).2 5680 = none →
        s3 5680 = none ∨ ∃ l3, s3 5680 = some l3 ∧ l3.owner = w3) := by
  exact claim2_release_nonowner_noop
    (fun p => if p = 5680 then some ⟨"workerA", 600⟩ else none)
    5680 ⟨"workerA", 600⟩ "workerB" (by simp) (by simp)

/- ### Market-data cache: daily bars and mergeBars

Dates are millisecond timestamps (JS `Date.getTime()`). The calendar-date key
used by `mergeBars` is the UTC day, i.e. what
`new Date(t).toISOString().split('T')[0]` identifies for a non-negative
timestamp. The OHLCV payload is carried around untouched by the merge, so it
is kept abstract. -/

/-- Milliseconds per day. -/
def msPerDay : Nat := 86400000

/-- UTC calendar-day key of a millisecond timestamp. -/
def dayKey (t : Nat) : Nat := t / msPerDay

/-- Midnight UTC of the day of `t` — what parsing a YYYYMMDD date string back
into a Date yields. -/
def dayStart (t : Nat) : Nat := dayKey t * msPerDay

/-- A daily bar: millisecond timestamp plus its OHLCV payload. -/
structure DailyBar (α : Type) where
  date : Nat
  payload : α
deriving DecidableEq

/-- Calendar-date key of a bar (the JS Map key string of `mergeBars`). -/
def barKey {α : Type} (b : DailyBar α) : Nat := dayKey b.date

/-- JS `Map.set` on an association list keyed by date: overwrite the value in
place when the key is already present, append the new entry otherwise. -/
def mapSet {β : Type} (m : List (Nat × β)) (k : Nat) (v : β) : List (Nat × β) :=
  if k ∈ m.map Prod.fst then
    m.map (fun kv => if kv.1 = k then (k, v) else kv)
  else m ++ [(k, v)]

/-- One `barMap.set(dateStr, bar)` step of `mergeBars`. -/
def barStep {α : Type} (m : List (Nat × DailyBar α)) (b : DailyBar α) :
    List (Nat × DailyBar α) :=
  mapSet m (barKey b) b

/-- The dedup Map of `mergeBars`: existing bars added first, then the new bars
added over them (the two source loops are one fold over the concatenation). -/
def mergeBarMap {α : Type} (existing newBars : List (DailyBar α)) :
    List (Nat × DailyBar α) :=
  (existing ++ newBars).foldl barStep []

instance dailyBarLeDecidable {α : Type} :
    DecidableRel (fun a b : DailyBar α => a.date ≤ b.date) :=
  fun a b => Nat.decLe a.date b.date

instance dailyBarLeTotal {α : Type} :
    IsTotal (DailyBar α) (fun a b => a.date ≤ b.date) :=
  ⟨fun a b => Nat.le_total a.date b.date⟩

instance dailyBarLeTrans {α : Type} :
    IsTrans (DailyBar α) (fun a b => a.date ≤ b.date) :=
  ⟨fun _ _ _ h1 h2 => Nat.le_trans h1 h2⟩

/-- Embedding of `mergeBars(existing, newBars)`: dedupe by calendar-date key
into a JS Map (existing first, new bars overwriting), take the values and sort
them ascending by timestamp, as the source comparator
`(a, b) => a.date - b.date` does. The deduped values have pairwise distinct
timestamps, so any comparison sort returns this same list. -/
def mergeBars {α : Type} (existing newBars : List (DailyBar α)) : List (DailyBar α) :=
  List.insertionSort (fun a b => a.date ≤ b.date)
    ((mergeBarMap existing newBars).map Prod.snd)

lemma mapSet_keys {β : Type} (m : List (Nat × β)) (k : Nat) (v : β) :
    (mapSet m k v).map Prod.fst =
      if k ∈ m.map Prod.fst then m.map Prod.fst else m.map Prod.fst ++ [k] := by
  unfold mapSet
  by_cases h : k ∈ m.map Prod.fst
  · rw [if_pos h, if_pos h, List.map_map]
    refine List.map_congr_left ?_
    intro kv _
    by_cases h0 : kv.1 = k
    · simp [h0]
    · simp [h0]
  · rw [if_neg h, if_neg h]
    simp

lemma mapSet_mem_keys {β : Type} (m : List (Nat × β)) (k k2 : Nat) (v : β) :
    k2 ∈ (mapSet m k v).map Prod.fst ↔ k2 ∈ m.map Prod.fst ∨ k2 = k := by
  rw [mapSet_keys]
  by_cases h : k ∈ m.map Prod.fst
  · rw [if_pos h]
    constructor
    · exact Or.inl
    · rintro (hm | rfl)
      · exact hm
      · exact h
  · rw [if_neg h]
    simp

lemma mapSet_keys_nodup {β : Type} {m : List (Nat × β)} (k : Nat) (v : β)
    (h : (m.map Prod.fst).Nodup) : ((mapSet m k v).map Prod.fst).Nodup := by
  rw [mapSet_keys]
  by_cases hk : k ∈ m.map Prod.fst
  · rw [if_pos hk]; exact h
  · rw [if_neg hk, List.nodup_append]
    refine ⟨h, List.nodup_singleton _, ?_⟩
    intro a ha hb
    rw [List.mem_singleton] at hb
    exact hk (hb ▸ ha)

lemma mapSet_mem_entry {β : Type} {m : List (Nat × β)} {k : Nat} {v : β} {kv : Nat × β}
    (h : kv ∈ mapSet m k v) : kv ∈ m ∨ kv = (k, v) := by
  unfold mapSet at h
  by_cases hk : k ∈ m.map Prod.fst
  · rw [if_pos hk] at h
    rcases List.mem_map.mp h with ⟨kv0, hkv0, he⟩
    by_cases h0 : kv0.1 = k
    · right; rw [← he, if_pos h0]
    · left; rw [← he, if_neg h0]; exact hkv0
  · rw [if_neg hk] at h
    rcases List.mem_append.mp h with hm | hm
    · exact Or.inl hm
    · right; simpa using hm

lemma mapSet_value_at_key {β : Type} {m : List (Nat × β)} {k : Nat} {v v2 : β}
    (h : (k, v2) ∈ mapSet m k v) : v2 = v := by
  unfold mapSet at h
  by_cases hk : k ∈ m.map Prod.fst
  · rw [if_pos hk] at h
    rcases List.mem_map.mp h with ⟨kv0, hkv0, he⟩
    by_cases h0 : kv0.1 = k
    · rw [if_pos h0] at he
      exact ((Prod.mk.injEq _ _ _ _).mp he).2.symm
    · rw [if_neg h0] at he
      exact absurd (congrArg Prod.fst he) h0
  · rw [if_neg hk] at h
    rcases List.mem_append.mp h with hm | hm
    · exact absurd (List.mem_map_of_mem Prod.fst hm) hk
    · exact (((Prod.mk.injEq _ _ _ _).mp (List.mem_singleton.mp hm)).2)

lemma mapSet_frame {β : Type} {m : List (Nat × β)} {k k2 : Nat} {v v2 : β}
    (hne : k2 ≠ k) : (k2, v2) ∈ mapSet m k v ↔ (k2, v2) ∈ m := by
  unfold mapSet
  by_cases hk : k ∈ m.map Prod.fst
  · rw [if_pos hk]
    constructor
    · intro h
      rcases List.mem_map.mp h with ⟨kv0, hkv0, he⟩
      by_cases h0 : kv0.1 = k
      · rw [if_pos h0] at he
        exact absurd ((Prod.mk.injEq _ _ _ _).mp he).1.symm hne
      · rw [if_neg h0] at he
        rwa [he] at hkv0
    · intro h
      refine List.mem_map.mpr ⟨(k2, v2), h, ?_⟩
      exact if_neg hne
  · rw [if_neg hk, List.mem_append]
    constructor
    · rintro (hm | hm)
      · exact hm
      · exact absurd ((Prod.mk.injEq _ _ _ _).mp (List.mem_singleton.mp hm)).1 hne
    · exact fun hm => Or.inl hm

lemma foldl_barStep_keys_mem {α : Type} :
    ∀ (l : List (DailyBar α)) (m : List (Nat × DailyBar α)) (k : Nat),
      k ∈ (l.foldl barStep m).map Prod.fst ↔ k ∈ m.map Prod.fst ∨ k ∈ l.map barKey := by
  intro l
  induction l with
  | nil => intro m k; simp
  | cons b l ih =>
    intro m k
    rw [List.foldl_cons, ih (barStep m b) k]
    unfold barStep
    rw [mapSet_mem_keys]
    simp only [List.map_cons, List.mem_cons]
    tauto

lemma foldl_barStep_keys_nodup {α : Type} :
    ∀ (l : List (DailyBar α)) (m : List (Nat × DailyBar α)),
      (m.map Prod.fst).Nodup → ((l.foldl barStep m).map Prod.fst).Nodup := by
  intro l
  induction l with
  | nil => intro m h; simpa using h
  | cons b l ih =>
    intro m h
    rw [List.foldl_cons]
    exact ih _ (mapSet_keys_nodup _ _ h)

lemma foldl_barStep_entry {α : Type} :
    ∀ (l : List (DailyBar α)) (m : List (Nat × DailyBar α)) (kv : Nat × DailyBar α),
      kv ∈ l.foldl barStep m → kv ∈ m ∨ (kv.1 = barKey kv.2 ∧ kv.2 ∈ l) := by
  intro l
  induction l with
  | nil => intro m kv h; simp only [List.foldl_nil] at h; exact Or.inl h
  | cons b l ih =>
    intro m kv h
    rw [List.foldl_cons] at h
    rcases ih _ kv h with hm | ⟨hk, hv⟩
    · rcases mapSet_mem_entry hm with hm2 | rfl
      · exact Or.inl hm2
      · exact Or.inr ⟨rfl, List.mem_cons_self _ _⟩
    · exact Or.inr ⟨hk, List.mem_cons_of_mem _ hv⟩

lemma foldl_barStep_frame {α : Type} :
    ∀ (l : List (DailyBar α)) (m : List (Nat × DailyBar α)) (k : Nat) (v : DailyBar α),
      k ∉ l.map barKey → ((k, v) ∈ l.foldl barStep m ↔ (k, v) ∈ m) := by
  intro l
  induction l with
  | nil => intro m k v _; simp
  | cons b l ih =>
    intro m k v hk
    have hk1 : k ≠ barKey b := fun h => hk (by simp [h])
    have hk2 : k ∉ l.map barKey := fun h => hk (by simp [h])
    rw [List.foldl_cons, ih _ k v hk2]
    exact mapSet_frame hk1

lemma foldl_barStep_val_from {α : Type} :
    ∀ (l : List (DailyBar α)) (m : List (Nat × DailyBar α)) (k : Nat) (v : DailyBar α),
      (k, v) ∈ l.foldl barStep m → k ∈ l.map barKey → v ∈ l := by
  intro l
  induction l with
  | nil => intro m k v _ hk; simp at hk
  | cons b l ih =>
    intro m k v h hk
    rw [List.foldl_cons] at h
    by_cases hin : k ∈ l.map barKey
    · exact List.mem_cons_of_mem _ (ih _ k v h hin)
    · have hkb : k = barKey b := by
        rw [List.map_cons] at hk
        rcases List.mem_cons.mp hk with h1 | h1
        · exact h1
        · exact absurd h1 hin
      have h2 : (k, v) ∈ barStep m b := (foldl_barStep_frame l _ k v hin).mp h
      unfold barStep at h2
      rw [hkb] at h2
      rw [mapSet_value_at_key h2]
      exact List.mem_cons_self _ _

lemma mergeBarMap_keys_mem {α : Type} (existing newBars : List (DailyBar α)) (k : Nat) :
    k ∈ (mergeBarMap existing newBars).map Prod.fst ↔
      k ∈ (existing ++ newBars).map barKey := by
  unfold mergeBarMap
  rw [foldl_barStep_keys_mem]
  simp

lemma mergeBarMap_snd_keys {α : Type} (existing newBars : List (DailyBar α)) :
    ((mergeBarMap existing newBars).map Prod.snd).map barKey =
      (mergeBarMap existing newBars).map Prod.fst := by
  rw [List.map_map]
  refine List.map_congr_left ?_
  intro kv hkv
  rcases foldl_barStep_entry _ _ kv hkv with hm | ⟨hk, _⟩
  · simp at hm
  · exact hk.symm

lemma dayKey_mono {a b : Nat} (h : a ≤ b) : dayKey a ≤ dayKey b :=
  Nat.div_le_div_right h

/-- Full specification of `mergeBars`, shared by the merge claim and by the
coverage-range claims below. -/
lemma mergeBars_spec {α : Type} (existing newBars : List (DailyBar α)) :
    ((mergeBars existing newBars).Pairwise
        (fun a b => a.date ≤ b.date ∧ barKey a < barKey b))
    ∧ (mergeBars existing newBars).length =
        (((existing ++ newBars).map barKey).toFinset).card
    ∧ (∀ b2 ∈ mergeBars existing newBars,
        barKey b2 ∈ newBars.map barKey → b2 ∈ newBars)
    ∧ (∀ k ∈ (existing ++ newBars).map barKey,
        ∃ b2 ∈ mergeBars existing newBars, barKey b2 = k) := by
  have hperm : (mergeBars existing newBars).Perm
      ((mergeBarMap existing newBars).map Prod.snd) :=
    List.perm_insertionSort _ _
  have hKeysNodup : ((mergeBarMap existing newBars).map Prod.fst).Nodup :=
    foldl_barStep_keys_nodup _ [] (by simp)
  have hValsKeysNodup : (((mergeBarMap existing newBars).map Prod.snd).map barKey).Nodup := by
    rw [mergeBarMap_snd_keys]; exact hKeysNodup
  have hOutKeysNodup : ((mergeBars existing newBars).map barKey).Nodup :=
    ((hperm.map barKey).nodup_iff).mpr hValsKeysNodup
  have hOutKeysPairwise :
      (mergeBars existing newBars).Pairwise (fun a b => barKey a ≠ barKey b) :=
    List.pairwise_map.mp hOutKeysNodup
  have hSorted : (mergeBars existing newBars).Pairwise (fun a b => a.date ≤ b.date) :=
    List.sorted_insertionSort (fun a b : DailyBar α => a.date ≤ b.date)
      ((mergeBarMap existing newBars).map Prod.snd)
  refine ⟨?_, ?_, ?_, ?_⟩
  · refine (hSorted.and hOutKeysPairwise).imp ?_
    intro a b hab
    exact ⟨hab.1, Nat.lt_of_le_of_ne (dayKey_mono hab.1) hab.2⟩
  · have h1 : (mergeBars existing newBars).length =
        (mergeBarMap existing newBars).length := by
      rw [hperm.length_eq, List.length_map]
    have h2 : (mergeBarMap existing newBars).length =
        ((mergeBarMap existing newBars).map Prod.fst).length :=
      (List.length_map _ _).symm
    have h3 : ((mergeBarMap existing newBars).map Prod.fst).toFinset.card =
        ((mergeBarMap existing newBars).map Prod.fst).length :=
      List.toFinset_card_of_nodup hKeysNodup
    have h4 : ((mergeBarMap existing newBars).map Prod.fst).toFinset =
        ((existing ++ newBars).map barKey).toFinset := by
      apply Finset.ext
      intro a
      simp only [List.mem_toFinset]
      exact mergeBarMap_keys_mem existing newBars a
    rw [h1, h2, ← h3, h4]
  · intro b2 hb2 hkey
    have hb2v : b2 ∈ (mergeBarMap existing newBars).map Prod.snd := hperm.subset hb2
    rcases List.mem_map.mp hb2v with ⟨kv, hkv, hsnd⟩
    rcases foldl_barStep_entry _ _ kv hkv with hm | ⟨hk, _⟩
    · simp at hm
    · have hkv2 : (barKey b2, b2) ∈ mergeBarMap existing newBars := by
        have : kv = (barKey b2, b2) := by
          rcases kv with ⟨k0, v0⟩
          cases hsnd
          simp only [Prod.mk.injEq]
          exact ⟨hk, trivial⟩
        rwa [this] at hkv
      have hsplit : mergeBarMap existing newBars =
          newBars.foldl barStep (existing.foldl barStep []) := by
        unfold mergeBarMap
        rw [List.foldl_append]
      rw [hsplit] at hkv2
      exact foldl_barStep_val_from newBars _ (barKey b2) b2 hkv2 hkey
  · intro k hk
    have hkm : k ∈ (mergeBarMap existing newBars).map Prod.fst :=
      (mergeBarMap_keys_mem existing newBars k).mpr hk
    rcases List.mem_map.mp hkm with ⟨kv, hkv, hfst⟩
    refine ⟨kv.2, ?_, ?_⟩
    · exact (hperm.mem_iff).mpr (List.mem_map_of_mem Prod.snd hkv)
    · rcases foldl_barStep_entry _ _ kv hkv with hm | ⟨hke, _⟩
      · simp at hm
      · rw [← hke, hfst]

/-- C3: merging two bar lists yields a sequence sorted ascending by date with
strictly increasing calendar-date keys (hence at most one bar per calendar
date), whose length is the number of distinct calendar dates across both
inputs; every bar whose date occurs in `newBars` comes from `newBars` (newer
input wins), and every date of either input is represented. -/
theorem claim3_mergeBars_correct {α : Type} (existing newBars : List (DailyBar α)) :
    ((mergeBars existing newBars).Pairwise
        (fun a b => a.date ≤ b.date ∧ barKey a < barKey b))
    ∧ (mergeBars existing newBars).length =
        (((existing ++ newBars).map barKey).toFinset).card
    ∧ (∀ b2 ∈ mergeBars existing newBars,
        barKey b2 ∈ newBars.map barKey → b2 ∈ newBars)
    ∧ (∀ k ∈ (existing ++ newBars).map barKey,
        ∃ b2 ∈ mergeBars existing newBars, barKey b2 = k) :=
  mergeBars_spec existing newBars

/-- Witness for C3 at a concrete overlap: day 0 and day 1 cached, day 1
re-delivered with a fresh payload; the merged output keeps two bars and the
day-1 bar is the one from the newer input. -/
theorem claim3_witness :
    ((mergeBars [⟨0, (0 : Int)⟩, ⟨86400000, 0⟩] [⟨86400001, 7⟩]).Pairwise
        (fun a b => a.date ≤ b.date ∧ barKey a < barKey b))
    ∧ (mergeBars [⟨0, (0 : Int)⟩, ⟨86400000, 0⟩] [⟨86400001, 7⟩]).length =
        (((([⟨0, (0 : Int)⟩, ⟨86400000, 0⟩] : List (DailyBar Int)) ++
          ([⟨86400001, 7⟩] : List (DailyBar Int))).map barKey).toFinset).card
    ∧ (⟨86400001, 7⟩ : DailyBar Int) ∈ [(⟨86400001, 7⟩ : DailyBar Int)] := by
  refine ⟨(claim3_mergeBars_correct _ _).1, (claim3_mergeBars_correct _ _).2.1, ?_⟩
  exact (claim3_mergeBars_correct [⟨0, (0 : Int)⟩, ⟨86400000, 0⟩] [⟨86400001, 7⟩]).2.2.1
    ⟨86400001, 7⟩ (by decide) (by decide)

/- ### Cache coverage: checkCacheStatus / ensureSymbolInCache

The per-(symbol, scope) on-disk state consists of the daily zip (a list of
CSV rows, each carrying the bar's calendar day) and the two auxiliary files
(map file, factor file). `getCachedDateRange` parses the first and last CSV
line back to midnight timestamps. -/

/-- One CSV row of the cached daily zip: the calendar-day number plus the
scaled OHLCV cells, which the coverage logic never inspects. -/
structure CsvRow (α : Type) where
  day : Nat
  cells : α
deriving DecidableEq

/-- Per-symbol on-disk cache state: zip content (`none` when the zip file is
absent) and presence of the map file and factor file. -/
structure CacheState (α : Type) where
  zip : Option (List (CsvRow α))
  hasMap : Bool
  hasFactor : Bool
deriving DecidableEq

/-- Cache directory before any write for this (symbol, scope). -/
def emptyCache (α : Type) : CacheState α := ⟨none, false, false⟩

/-- Embedding of `exportMarketDataToCache`: every bar becomes one CSV line
dated by its calendar day (YYYYMMDD), in the order of the bar list. -/
def exportBars {α : Type} (bars : List (DailyBar α)) : List (CsvRow α) :=
  bars.map (fun b => ⟨dayKey b.date, b.payload⟩)

/-- Embedding of `readCachedBars`: an absent zip reads as no bars; a CSV
line is parsed back to a bar dated at midnight of its day. -/
def readCachedBars {α : Type} (s : CacheState α) : List (DailyBar α) :=
  match s.zip with
  | none => []
  | some rows => rows.map (fun r => ⟨r.day * msPerDay, r.cells⟩)

/-- Embedding of `getCachedDateRange`: the dates of the first and last CSV
line of the zip, `none` when the zip is absent or empty. -/
def getCachedDateRange {α : Type} (s : CacheState α) : Option (Nat × Nat) :=
  match s.zip with
  | none => none
  | some rows =>
    match rows.head?, rows.getLast? with
    | some r1, some r2 => some (r1.day * msPerDay, r2.day * msPerDay)
    | _, _ => none

/-- Coverage verdict of `checkCacheStatus`: `full`, `gaps` (the source string
is 'partial') or `absent` (the source string is 'none'). -/
inductive Coverage where
  | full
  | gaps
  | absent
deriving DecidableEq

/-- Result record of `checkCacheStatus`. -/
structure CacheCheck where
  status : Coverage
  cachedRange : Option (Nat × Nat)
  missingBefore : Bool
  missingAfter : Bool
deriving DecidableEq

/-- Embedding of `checkCacheStatus(symbol, requiredStart, requiredEnd)`:
`absent` when the cached range cannot be determined or an auxiliary file is
missing; otherwise `full` exactly when nothing is missing before or after
the required range. -/
def checkCacheStatus {α : Type} (s : CacheState α) (requiredStart requiredEnd : Nat) :
    CacheCheck :=
  match getCachedDateRange s, s.hasMap && s.hasFactor with
  | some (firstDate, lastDate), true =>
    if requiredStart < firstDate ∨ lastDate < requiredEnd then
      ⟨Coverage.gaps, some (firstDate, lastDate),
        decide (requiredStart < firstDate), decide (lastDate < requiredEnd)⟩
    else
      ⟨Coverage.full, some (firstDate, lastDate), false, false⟩
  | _, _ => ⟨Coverage.absent, none, true, true⟩

/-- Embedding of `ensureSymbolInCache(symbol, newBars, requiredStart,
requiredEnd)`: no-op on full coverage; on partial coverage merge the cached
bars with the new ones and rewrite the zip plus both auxiliary files; on no
coverage write the new bars and the auxiliary files, or only synthesize the
auxiliary files when no bars were delivered. -/
def ensureSymbolInCache {α : Type} (s : CacheState α) (newBars : List (DailyBar α))
    (requiredStart requiredEnd : Nat) : CacheState α :=
  match (checkCacheStatus s requiredStart requiredEnd).status with
  | Coverage.full => s
  | Coverage.gaps =>
    if 0 < (mergeBars (readCachedBars s) newBars).length then
      ⟨some (exportBars (mergeBars (readCachedBars s) newBars)), true, true⟩
    else s
  | Coverage.absent =>
    if 0 < newBars.length then
      ⟨some (exportBars newBars), true, true⟩
    else
      ⟨s.zip, true, true⟩

/-- One `ensureSymbolInCache` call for this (symbol, scope). -/
structure EnsureCall (α : Type) where
  newBars : List (DailyBar α)
  requiredStart : Nat
  requiredEnd : Nat

/-- State of the per-symbol cache after a sequence of `ensureSymbolInCache`
calls starting from an untouched cache directory. -/
def runEnsureCalls {α : Type} (calls : List (EnsureCall α)) : CacheState α :=
  calls.foldl
    (fun s c => ensureSymbolInCache s c.newBars c.requiredStart c.requiredEnd)
    (emptyCache α)

/-- The auxiliary files are present whenever the zip is: true of every state
the ensure pipeline can produce, because every branch that writes the zip
also writes both auxiliary files. -/
def cacheAuxInv {α : Type} (s : CacheState α) : Prop :=
  s.zip.isSome = true → s.hasMap = true ∧ s.hasFactor = true

lemma checkCacheStatus_eq {α : Type} (s : CacheState α) (a b f l : Nat)
    (hr : getCachedDateRange s = some (f, l)) (hm : s.hasMap = true)
    (hf : s.hasFactor = true) :
    checkCacheStatus s a b =
      if a < f ∨ l < b then
        ⟨Coverage.gaps, some (f, l), decide (a < f), decide (l < b)⟩
      else ⟨Coverage.full, some (f, l), false, false⟩ := by
  unfold checkCacheStatus
  rw [hr, hm, hf]
  rfl

lemma checkCacheStatus_absent_of_none {α : Type} (s : CacheState α) (a b : Nat)
    (hr : getCachedDateRange s = none) :
    checkCacheStatus s a b = ⟨Coverage.absent, none, true, true⟩ := by
  unfold checkCacheStatus
  rw [hr]

lemma zip_isSome_of_range {α : Type} {s : CacheState α} {f l : Nat}
    (hr : getCachedDateRange s = some (f, l)) : s.zip.isSome = true := by
  unfold getCachedDateRange at hr
  cases hz : s.zip with
  | none => rw [hz] at hr; cases hr
  | some rows => rfl

lemma checkCacheStatus_full_iff {α : Type} {s : CacheState α} (a b : Nat)
    (hinv : cacheAuxInv s) :
    (checkCacheStatus s a b).status = Coverage.full ↔
      ∃ f l, getCachedDateRange s = some (f, l) ∧ f ≤ a ∧ b ≤ l := by
  cases hr : getCachedDateRange s with
  | none =>
    rw [checkCacheStatus_absent_of_none s a b hr]
    constructor
    · intro h; cases h
    · rintro ⟨f, l, hfl, -, -⟩
      cases hfl
  | some fl =>
    rcases fl with ⟨f, l⟩
    rcases hinv (zip_isSome_of_range hr) with ⟨hm, hf⟩
    rw [checkCacheStatus_eq s a b f l hr hm hf]
    by_cases hc : a < f ∨ l < b
    · rw [if_pos hc]
      constructor
      · intro h; cases h
      · rintro ⟨f2, l2, hfl2, h1, h2⟩
        have hfe : f = f2 := congrArg (fun x => x.1) (Option.some.inj hfl2)
        have hle : l = l2 := congrArg (fun x => x.2) (Option.some.inj hfl2)
        exfalso
        omega
    · rw [if_neg hc]
      constructor
      · intro _
        refine ⟨f, l, rfl, ?_, ?_⟩ <;> omega
      · intro _; rfl

lemma ensure_preserves_inv {α : Type} (s : CacheState α) (nb : List (DailyBar α))
    (a b : Nat) (h : cacheAuxInv s) :
    cacheAuxInv (ensureSymbolInCache s nb a b) := by
  unfold ensureSymbolInCache
  cases hst : (checkCacheStatus s a b).status with
  | full => exact h
  | gaps =>
    by_cases hl : 0 < (mergeBars (readCachedBars s) nb).length
    · rw [if_pos hl]; intro _; exact ⟨rfl, rfl⟩
    · rw [if_neg hl]; exact h
  | absent =>
    by_cases hl : 0 < nb.length
    · rw [if_pos hl]; intro _; exact ⟨rfl, rfl⟩
    · rw [if_neg hl]; intro _; exact ⟨rfl, rfl⟩

lemma runEnsureCalls_inv {α : Type} (calls : List (EnsureCall α)) :
    cacheAuxInv (runEnsureCalls calls) := by
  suffices h : ∀ (l : List (EnsureCall α)) (s : CacheState α), cacheAuxInv s →
      cacheAuxInv (l.foldl
        (fun s c => ensureSymbolInCache s c.newBars c.requiredStart c.requiredEnd) s) by
    refine h calls (emptyCache α) ?_
    intro hz
    cases hz
  intro l
  induction l with
  | nil => intro s hs; exact hs
  | cons c l ih =>
    intro s hs
    rw [List.foldl_cons]
    exact ih _ (ensure_preserves_inv s c.newBars c.requiredStart c.requiredEnd hs)

/-- C4: after any sequence of `ensureSymbolInCache` calls on a fresh
(symbol, scope), `checkCacheStatus` reports full coverage exactly when the
cached range those calls left behind covers the queried range; on a
(symbol, scope) never touched by an ensure call it reports no coverage. -/
theorem claim4_checkCoverage_full_iff {α : Type} (calls : List (EnsureCall α))
    (a b : Nat) :
    ((checkCacheStatus (runEnsureCalls calls) a b).status = Coverage.full ↔
      ∃ f l, getCachedDateRange (runEnsureCalls calls) = some (f, l) ∧ f ≤ a ∧ b ≤ l)
    ∧ (calls = [] →
      (checkCacheStatus (runEnsureCalls calls) a b).status = Coverage.absent) := by
  constructor
  · exact checkCacheStatus_full_iff a b (runEnsureCalls_inv calls)
  · rintro rfl
    rfl

/-- Witness for C4: one ensure call for days 0..2 makes the exact query full,
and the untouched cache reports no coverage. -/
theorem claim4_witness :
    ((checkCacheStatus (runEnsureCalls
        ([⟨[⟨0, 0⟩, ⟨2 * msPerDay, 0⟩], 0, 2 * msPerDay⟩] : List (EnsureCall Int)))
      0 (2 * msPerDay)).status = Coverage.full)
    ∧ ((checkCacheStatus (runEnsureCalls ([] : List (EnsureCall Int))) 0 1).status =
        Coverage.absent) := by
  constructor
  · exact (claim4_checkCoverage_full_iff
        ([⟨[⟨0, 0⟩, ⟨2 * msPerDay, 0⟩], 0, 2 * msPerDay⟩] : List (EnsureCall Int))
        0 (2 * msPerDay)).1.mpr
      ⟨0, 2 * msPerDay, by decide, by decide, by decide⟩
  · exact (claim4_checkCoverage_full_iff ([] : List (EnsureCall Int)) 0 1).2 rfl

lemma pairwise_head_min {β : Type} {R : β → β → Prop} {l : List β} (hp : l.Pairwise R)
    {h0 : β} (hh : l.head? = some h0) {x : β} (hx : x ∈ l) : x = h0 ∨ R h0 x := by
  cases l with
  | nil => cases hh
  | cons a t =>
    have ha : a = h0 := Option.some.inj hh
    subst ha
    rcases List.mem_cons.mp hx with rfl | hx2
    · exact Or.inl rfl
    · exact Or.inr ((List.pairwise_cons.mp hp).1 x hx2)

lemma pairwise_getLast_max {β : Type} {R : β → β → Prop} {l : List β} (hp : l.Pairwise R)
    {l0 : β} (hl : l.getLast? = some l0) {x : β} (hx : x ∈ l) : x = l0 ∨ R x l0 := by
  have hp2 : l.reverse.Pairwise (fun a b => R b a) := List.pairwise_reverse.mpr hp
  have hh : l.reverse.head? = some l0 := by rw [List.head?_reverse]; exact hl
  exact pairwise_head_min hp2 hh (List.mem_reverse.mpr hx)

lemma msPerDay_pos : 0 < msPerDay := by
  unfold msPerDay
  omega

lemma dayKey_mul (d : Nat) : dayKey (d * msPerDay) = d := by
  unfold dayKey
  exact Nat.mul_div_cancel d msPerDay_pos

lemma range_cases {α : Type} {s : CacheState α} {f l : Nat}
    (hr : getCachedDateRange s = some (f, l)) :
    ∃ rows r1 r2, s.zip = some rows ∧ rows.head? = some r1 ∧ rows.getLast? = some r2 ∧
      f = r1.day * msPerDay ∧ l = r2.day * msPerDay := by
  unfold getCachedDateRange at hr
  cases hz : s.zip with
  | none => rw [hz] at hr; cases hr
  | some rows =>
    rw [hz] at hr
    have hr2 : (match rows.head?, rows.getLast? with
        | some r1, some r2 => some (r1.day * msPerDay, r2.day * msPerDay)
        | _, _ => none) = some (f, l) := hr
    cases hh : rows.head? with
    | none =>
      cases hh2 : rows.getLast? with
      | none => rw [hh, hh2] at hr2; cases hr2
      | some r2 => rw [hh, hh2] at hr2; cases hr2
    | some r1 =>
      cases hh2 : rows.getLast? with
      | none => rw [hh, hh2] at hr2; cases hr2
      | some r2 =>
        rw [hh, hh2] at hr2
        have h1 : r1.day * msPerDay = f := congrArg (fun x => x.1) (Option.some.inj hr2)
        have h2 : r2.day * msPerDay = l := congrArg (fun x => x.2) (Option.some.inj hr2)
        exact ⟨rows, r1, r2, rfl, hh, hh2, h1.symm, h2.symm⟩

lemma ensure_range_grows {α : Type} (s : CacheState α) (nb : List (DailyBar α))
    (a b : Nat) (hinv : cacheAuxInv s) {f l : Nat}
    (hr : getCachedDateRange s = some (f, l)) :
    ∃ f2 l2, getCachedDateRange (ensureSymbolInCache s nb a b) = some (f2, l2) ∧
      f2 ≤ f ∧ l ≤ l2 := by
  rcases range_cases hr with ⟨rows, r1, r2, hz, hh1, hh2, hfe, hle⟩
  rcases hinv (by rw [hz]; rfl) with ⟨hm, hfac⟩
  have hstat := checkCacheStatus_eq s a b f l hr hm hfac
  unfold ensureSymbolInCache
  rw [hstat]
  by_cases hc : a < f ∨ l < b
  · rw [if_pos hc]
    have her : readCachedBars s =
        rows.map (fun r => (⟨r.day * msPerDay, r.cells⟩ : DailyBar α)) := by
      unfold readCachedBars
      rw [hz]
    have hr1 : r1 ∈ rows := List.mem_of_mem_head? hh1
    have hr2 : r2 ∈ rows := List.mem_of_mem_getLast? hh2
    have hb1 : (⟨r1.day * msPerDay, r1.cells⟩ : DailyBar α) ∈ readCachedBars s := by
      rw [her]
      exact List.mem_map_of_mem _ hr1
    have hb2 : (⟨r2.day * msPerDay, r2.cells⟩ : DailyBar α) ∈ readCachedBars s := by
      rw [her]
      exact List.mem_map_of_mem _ hr2
    have hkey1 : r1.day ∈ (readCachedBars s ++ nb).map barKey :=
      List.mem_map.mpr ⟨⟨r1.day * msPerDay, r1.cells⟩, List.mem_append_left _ hb1,
        dayKey_mul r1.day⟩
    have hkey2 : r2.day ∈ (readCachedBars s ++ nb).map barKey :=
      List.mem_map.mpr ⟨⟨r2.day * msPerDay, r2.cells⟩, List.mem_append_left _ hb2,
        dayKey_mul r2.day⟩
    obtain ⟨bf, hbf, hbfk⟩ := (mergeBars_spec (readCachedBars s) nb).2.2.2 r1.day hkey1
    obtain ⟨bl, hbl, hblk⟩ := (mergeBars_spec (readCachedBars s) nb).2.2.2 r2.day hkey2
    have hpw := (mergeBars_spec (readCachedBars s) nb).1
    have hne : mergeBars (readCachedBars s) nb ≠ [] := List.ne_nil_of_mem hbf
    have hlen : 0 < (mergeBars (readCachedBars s) nb).length := List.length_pos.mpr hne
    rw [if_pos hlen]
    obtain ⟨mh, hmh⟩ : ∃ mh, (mergeBars (readCachedBars s) nb).head? = some mh := by
      cases hme : mergeBars (readCachedBars s) nb with
      | nil => exact absurd hme hne
      | cons x t => exact ⟨x, rfl⟩
    obtain ⟨ml, hml⟩ : ∃ ml, (mergeBars (readCachedBars s) nb).getLast? = some ml :=
      Option.isSome_iff_exists.mp (List.getLast?_isSome.mpr hne)
    have hexh : (exportBars (mergeBars (readCachedBars s) nb)).head? =
        some ⟨dayKey mh.date, mh.payload⟩ := by
      unfold exportBars
      rw [List.head?_map, hmh]
      rfl
    have hexl : (exportBars (mergeBars (readCachedBars s) nb)).getLast? =
        some ⟨dayKey ml.date, ml.payload⟩ := by
      unfold exportBars
      rw [List.getLast?_map, hml]
      rfl
    refine ⟨dayKey mh.date * msPerDay, dayKey ml.date * msPerDay, ?_, ?_, ?_⟩
    · unfold getCachedDateRange
      simp only []
      rw [hexh, hexl]
    · have hkle : barKey mh ≤ r1.day := by
        rcases pairwise_head_min hpw hmh hbf with rfl | hrel
        · omega
        · have : barKey mh < barKey bf := hrel.2
          omega
      calc dayKey mh.date * msPerDay ≤ r1.day * msPerDay :=
            Nat.mul_le_mul_right msPerDay hkle
        _ = f := hfe.symm
    · have hkge : r2.day ≤ barKey ml := by
        rcases pairwise_getLast_max hpw hml hbl with rfl | hrel
        · omega
        · have : barKey bl < barKey ml := hrel.2
          omega
      calc l = r2.day * msPerDay := hle
        _ ≤ dayKey ml.date * msPerDay := Nat.mul_le_mul_right msPerDay hkge
  · rw [if_neg hc]
    exact ⟨f, l, hr, Nat.le_refl f, Nat.le_refl l⟩

/-- C5: the cached coverage range of a (symbol, scope) never shrinks — after
any further `ensureSymbolInCache` call on a state reached by a sequence of
such calls, the new first date is not later than the old first date and the
new last date is not earlier than the old last date. -/
theorem claim5_coverage_never_shrinks {α : Type} (calls : List (EnsureCall α))
    (c : EnsureCall α) {f l : Nat}
    (hr : getCachedDateRange (runEnsureCalls calls) = some (f, l)) :
    ∃ f2 l2, getCachedDateRange (runEnsureCalls (calls ++ [c])) = some (f2, l2) ∧
      f2 ≤ f ∧ l ≤ l2 := by
  have hstep : runEnsureCalls (calls ++ [c]) =
      ensureSymbolInCache (runEnsureCalls calls) c.newBars c.requiredStart c.requiredEnd := by
    unfold runEnsureCalls
    rw [List.foldl_concat]
  rw [hstep]
  exact ensure_range_grows _ _ _ _ (runEnsureCalls_inv calls) hr

/-- Witness for C5: days 0..2 cached, then an update delivering only day 1
with a wider required range; the range still spans at least days 0..2. -/
theorem claim5_witness :
    ∃ f2 l2, getCachedDateRange (runEnsureCalls
        (([⟨[⟨0, 0⟩, ⟨2 * msPerDay, 0⟩], 0, 2 * msPerDay⟩] : List (EnsureCall Int)) ++
          [⟨[⟨msPerDay, 1⟩], 0, 3 * msPerDay⟩])) = some (f2, l2) ∧
      f2 ≤ 0 ∧ 2 * msPerDay ≤ l2 :=
  claim5_coverage_never_shrinks
    ([⟨[⟨0, 0⟩, ⟨2 * msPerDay, 0⟩], 0, 2 * msPerDay⟩] : List (EnsureCall Int))
    ⟨[⟨msPerDay, 1⟩], 0, 3 * msPerDay⟩
    (by decide)

/- ### Usage ledger: quota check (canUserRunJob) -/

/-- Result record of the quota and concurrency check. -/
structure QuotaCheckResult where
  allowed : Bool
  reason : String
  quotaRemainingSeconds : Nat
  currentRunningJobs : Nat
deriving DecidableEq

/-- Embedding of `canUserRunJob(userId, jobType)`: the single row produced by
the backing aggregate `can_user_run_job`, or `none` when the aggregate yields
no row (e.g. the migration defining it has not run); with no row the check
allows by default. -/
def canUserRunJob (queryResult : Option QuotaCheckResult) : QuotaCheckResult :=
  match queryResult with
  | some result => result
  | none =>
    { allowed := true
      reason := "OK (quota check skipped)"
      quotaRemainingSeconds := 999999
      currentRunningJobs := 0 }

/-- C8: when the quota check's backing aggregate is unavailable (yields no
row), `canUserRunJob` fails open — it returns allowed with the skip reason and
a generous remaining quota rather than raising or denying; an available
aggregate's verdict is passed through unchanged. -/
theorem claim8_quota_fails_open :
    (canUserRunJob none).allowed = true
    ∧ canUserRunJob none =
        ⟨true, "OK (quota check skipped)", 999999, 0⟩
    ∧ (∀ r : QuotaCheckResult, canUserRunJob (some r) = r) := by
  exact ⟨rfl, rfl, fun r => rfl⟩

/- ### Usage ledger: orphan reconciliation (cleanupOrphanedJobs) -/

/-- Status values of a usage_tracking row. -/
inductive UsageStatus where
  | queued
  | running
  | completed
  | error
  | aborted
deriving DecidableEq

/-- A usage_tracking ledger row as reconciliation sees it. -/
structure UsageRow where
  id : String
  status : UsageStatus
  containerId : Option String
  startedAt : Option Nat
  completedAt : Option Nat
  errorMessage : Option String
deriving DecidableEq

/-- Result of probing `docker inspect` for a container id. -/
def ContainerProbe : Type := String → Bool

/-- Effective liveness after the stale-kill step of `cleanupOrphanedJobs`:
no container id counts as not running; a probed-alive container older than
30 minutes is killed and then counts as not running. Ages are in
milliseconds (the source computes (Date.now() - started_at) / 60000 > 30,
i.e. strictly more than 1800000 ms). -/
def containerStillRunning (alive : ContainerProbe) (now : Nat) (job : UsageRow) : Bool :=
  match job.containerId with
  | none => false
  | some cid =>
    if alive cid then
      match job.startedAt with
      | some t => if 30 * 60000 < now - t then false else true
      | none => true
    else false

/-- One iteration of the cleanup loop: a running row whose container is not
(or no longer) running is marked aborted, with completion time and the
cleanup diagnostic; every other row is untouched. -/
def reconcileRow (alive : ContainerProbe) (now : Nat) (job : UsageRow) : UsageRow :=
  if job.status = UsageStatus.running ∧ containerStillRunning alive now job = false then
    { job with
        status := UsageStatus.aborted
        completedAt := some now
        errorMessage := some "Orphaned job cleaned up on service restart" }
  else job

/-- Embedding of `cleanupOrphanedJobs`: process every ledger row (the SELECT
restricts to status running, reflected in the per-row guard) and report the
number of rows cleaned. -/
def cleanupOrphanedJobs (alive : ContainerProbe) (now : Nat) (db : List UsageRow) :
    List UsageRow × Nat :=
  (db.map (reconcileRow alive now),
    (db.filter (fun job => decide (job.status = UsageStatus.running)
      && !containerStillRunning alive now job)).length)

lemma reconcileRow_of_not_running (alive : ContainerProbe) (now : Nat) (job : UsageRow)
    (h : job.status ≠ UsageStatus.running) : reconcileRow alive now job = job := by
  unfold reconcileRow
  rw [if_neg]
  rintro ⟨hc, -⟩
  exact h hc

/-- C9: orphan reconciliation is idempotent on a stale running row — the
first run marks it aborted (exactly one cleaned row), and a second run, even
under a fresh liveness probe and clock, counts nothing cleaned and leaves the
ledger unchanged. -/
theorem claim9_reconciliation_idempotent (alive alive2 : ContainerProbe)
    (now now2 : Nat) (r : UsageRow) (hrun : r.status = UsageStatus.running)
    (hdead : containerStillRunning alive now r = false) :
    ((reconcileRow alive now r).status = UsageStatus.aborted)
    ∧ (reconcileRow alive2 now2 (reconcileRow alive now r) = reconcileRow alive now r)
    ∧ ((cleanupOrphanedJobs alive now [r]).2 = 1)
    ∧ ((cleanupOrphanedJobs alive2 now2 (cleanupOrphanedJobs alive now [r]).1).2 = 0)
    ∧ ((cleanupOrphanedJobs alive2 now2 (cleanupOrphanedJobs alive now [r]).1).1 =
        (cleanupOrphanedJobs alive now [r]).1) := by
  have h1 : reconcileRow alive now r =
      { r with
          status := UsageStatus.aborted
          completedAt := some now
          errorMessage := some "Orphaned job cleaned up on service restart" } := by
    unfold reconcileRow
    rw [if_pos ⟨hrun, hdead⟩]
  have h2 : (reconcileRow alive now r).status = UsageStatus.aborted := by
    rw [h1]
  have h3 : reconcileRow alive2 now2 (reconcileRow alive now r) = reconcileRow alive now r :=
    reconcileRow_of_not_running alive2 now2 _ (by rw [h2]; intro hx; cases hx)
  refine ⟨h2, h3, ?_, ?_, ?_⟩
  · unfold cleanupOrphanedJobs
    simp [hrun, hdead]
  · unfold cleanupOrphanedJobs
    simp only [List.map_cons, List.map_nil, List.filter]
    rw [h2]
    simp
  · unfold cleanupOrphanedJobs
    simp only [List.map_cons, List.map_nil]
    rw [h3]

/-- Witness for C9: a running row whose container probe says dead is aborted
once and stays fixed on the second pass. -/
theorem claim9_witness :
    ((reconcileRow (fun _ => false) 0
        ⟨"job-1", UsageStatus.running, some "c1", some 0, none, none⟩).status =
      UsageStatus.aborted)
    ∧ (reconcileRow (fun _ => true) 99
        (reconcileRow (fun _ => false) 0
          ⟨"job-1", UsageStatus.running, some "c1", some 0, none, none⟩) =
        reconcileRow (fun _ => false) 0
          ⟨"job-1", UsageStatus.running, some "c1", some 0, none, none⟩)
    ∧ ((cleanupOrphanedJobs (fun _ => false) 0
        [⟨"job-1", UsageStatus.running, some "c1", some 0, none, none⟩]).2 = 1)
    ∧ ((cleanupOrphanedJobs (fun _ => true) 99
        (cleanupOrphanedJobs (fun _ => false) 0
          [⟨"job-1", UsageStatus.running, some "c1", some 0, none, none⟩]).1).2 = 0)
    ∧ ((cleanupOrphanedJobs (fun _ => true) 99
        (cleanupOrphanedJobs (fun _ => false) 0
          [⟨"job-1", UsageStatus.running, some "c1", some 0, none, none⟩]).1).1 =
        (cleanupOrphanedJobs (fun _ => false) 0
          [⟨"job-1", UsageStatus.running, some "c1", some 0, none, none⟩]).1) :=
  claim9_reconciliation_idempotent (fun _ => false) (fun _ => true) 0 99
    ⟨"job-1", UsageStatus.running, some "c1", some 0, none, none⟩ rfl rfl

/- ### Statistics extraction (extractStatistics, getNumber, getNumberOrNull)

JS numbers are modelled as either finite with an exact rational value, or
NaN, or one of the infinities — the classification that `isNaN` and
`isFinite` observe. The percent scaling multiplies IEEE doubles, so its
finiteness follows IEEE-754 round-to-nearest-even: a product whose magnitude
reaches 2^1024 - 2^970 overflows to the signed infinity; the numeric value of
an in-range product is kept exact, since mantissa rounding cannot change the
finite/NaN/infinite classification. `parseFloat` is kept fully abstract
(universally quantified), so the results cover every possible parse result
including NaN and the infinities. -/

/-- A JS number as classified by isNaN / isFinite. -/
inductive JsNum where
  | fin (q : Rat)
  | nan
  | posInf
  | negInf
deriving DecidableEq

/-- JS `isNaN`. -/
def jsIsNaN : JsNum → Bool
  | JsNum.nan => true
  | _ => false

/-- JS `isFinite`. -/
def jsIsFinite : JsNum → Bool
  | JsNum.fin _ => true
  | _ => false

/-- A JSON field value as the extraction sees it: a number, a string, the
result of a missing key (undefined), an explicit null, or any other shape. -/
inductive JsVal where
  | num (n : JsNum)
  | str (s2 : String)
  | undef
  | nullv
  | other
deriving DecidableEq

/-- Embedding of `getNumber`: undefined and null give 0; numbers are taken as
is and strings go through parseFloat; any other shape gives 0; finally NaN
and the infinities are replaced by 0 because PostgreSQL cannot store them. -/
def getNumber (parseFloatFn : String → JsNum) (val : JsVal) : JsNum :=
  match val with
  | JsVal.undef => JsNum.fin 0
  | JsVal.nullv => JsNum.fin 0
  | JsVal.num n => if jsIsNaN n || !jsIsFinite n then JsNum.fin 0 else n
  | JsVal.str s2 =>
    if jsIsNaN (parseFloatFn s2) || !jsIsFinite (parseFloatFn s2) then JsNum.fin 0
    else parseFloatFn s2
  | JsVal.other => JsNum.fin 0

/-- Embedding of `getNumberOrNull`: as `getNumber` but yielding null instead
of the 0 default. -/
def getNumberOrNull (parseFloatFn : String → JsNum) (val : JsVal) : Option JsNum :=
  match val with
  | JsVal.undef => none
  | JsVal.nullv => none
  | JsVal.num n => if jsIsNaN n || !jsIsFinite n then none else some n
  | JsVal.str s2 =>
    if jsIsNaN (parseFloatFn s2) || !jsIsFinite (parseFloatFn s2) then none
    else some (parseFloatFn s2)
  | JsVal.other => none

/-- Magnitude at which IEEE-754 double multiplication overflows to the
signed infinity under round-to-nearest-even: 2^1024 - 2^970 (products of
strictly smaller magnitude round to a finite double, at most the largest
finite double (2^53 - 1) * 2^971). -/
def overflowBound : Rat := 2 ^ 1024 - 2 ^ 970

/-- Scaling a decimal into a percent: JS multiplies IEEE doubles, so a
finite value whose product with 100 reaches the overflow bound becomes the
signed infinity; NaN and the infinities propagate. In-range products are
kept exact, which does not affect their classification. -/
def jsTimes100 : JsNum → JsNum
  | JsNum.fin q =>
    if overflowBound ≤ q * 100 then JsNum.posInf
    else if q * 100 ≤ -overflowBound then JsNum.negInf
    else JsNum.fin (q * 100)
  | JsNum.nan => JsNum.nan
  | JsNum.posInf => JsNum.posInf
  | JsNum.negInf => JsNum.negInf

/-- Embedding of `toPercent`. -/
def toPercent (parseFloatFn : String → JsNum) (val : JsVal) : JsNum :=
  jsTimes100 (getNumber parseFloatFn val)

/-- Embedding of `toPercentOrNull`. -/
def toPercentOrNull (parseFloatFn : String → JsNum) (val : JsVal) : Option JsNum :=
  (getNumberOrNull parseFloatFn val).map jsTimes100

/-- The comprehensive statistics record stored on a completed job. Field
names follow the source (`sharpe`, `sortino`, `treynor`, `information` and
`profitLoss` stand for the source's corresponding Ratio-suffixed fields). -/
structure ExtendedStatistics where
  netProfit : JsNum
  sharpe : JsNum
  cagr : JsNum
  drawdown : JsNum
  totalTrades : JsNum
  winRate : JsNum
  totalWins : JsNum
  totalLosses : JsNum
  profitLoss : JsNum
  alpha : Option JsNum
  beta : Option JsNum
  sortino : Option JsNum
  treynor : Option JsNum
  information : Option JsNum
  trackingError : Option JsNum
  annualStdDev : Option JsNum
  annualVariance : Option JsNum
  totalFees : Option JsNum
  averageWin : Option JsNum
  averageLoss : Option JsNum
  endEquity : Option JsNum

/-- Embedding of `extractStatistics`: the portfolio and trade statistics
objects are field lookups (a missing key reads as undefined). -/
def extractStatistics (parseFloatFn : String → JsNum)
    (portfolioStats tradeStats : String → JsVal) : ExtendedStatistics where
  netProfit := toPercent parseFloatFn (portfolioStats "totalNetProfit")
  sharpe := getNumber parseFloatFn (portfolioStats "sharpeRatio")
  cagr := toPercent parseFloatFn (portfolioStats "compoundingAnnualReturn")
  drawdown := toPercent parseFloatFn (portfolioStats "drawdown")
  totalTrades := getNumber parseFloatFn (tradeStats "totalNumberOfTrades")
  winRate := getNumber parseFloatFn (tradeStats "winRate")
  totalWins := getNumber parseFloatFn (tradeStats "numberOfWinningTrades")
  totalLosses := getNumber parseFloatFn (tradeStats "numberOfLosingTrades")
  profitLoss := getNumber parseFloatFn (tradeStats "profitLossRatio")
  alpha := toPercentOrNull parseFloatFn (portfolioStats "alpha")
  beta := getNumberOrNull parseFloatFn (portfolioStats "beta")
  sortino := getNumberOrNull parseFloatFn (portfolioStats "sortinoRatio")
  treynor := getNumberOrNull parseFloatFn (portfolioStats "treynorRatio")
  information := getNumberOrNull parseFloatFn (portfolioStats "informationRatio")
  trackingError := toPercentOrNull parseFloatFn (portfolioStats "trackingError")
  annualStdDev := toPercentOrNull parseFloatFn (portfolioStats "annualStandardDeviation")
  annualVariance := getNumberOrNull parseFloatFn (portfolioStats "annualVariance")
  totalFees := getNumberOrNull parseFloatFn (tradeStats "totalFees")
  averageWin := getNumberOrNull parseFloatFn (tradeStats "averageProfit")
  averageLoss := getNumberOrNull parseFloatFn (tradeStats "averageLoss")
  endEquity := getNumberOrNull parseFloatFn (portfolioStats "endEquity")

/-- An optional statistic is sound when it is null or finite. -/
def finiteOpt : Option JsNum → Bool
  | none => true
  | some n => jsIsFinite n

/-- The property claim C10 asserts of the record: every statistic slot is
finite (required) or null-or-finite (optional). Refuted below: the
percent-scaled slots can overflow. -/
def statsAllFinite (st : ExtendedStatistics) : Bool :=
  jsIsFinite st.netProfit && jsIsFinite st.sharpe && jsIsFinite st.cagr &&
  jsIsFinite st.drawdown && jsIsFinite st.totalTrades && jsIsFinite st.winRate &&
  jsIsFinite st.totalWins && jsIsFinite st.totalLosses && jsIsFinite st.profitLoss &&
  finiteOpt st.alpha && finiteOpt st.beta && finiteOpt st.sortino &&
  finiteOpt st.treynor && finiteOpt st.information && finiteOpt st.trackingError &&
  finiteOpt st.annualStdDev && finiteOpt st.annualVariance && finiteOpt st.totalFees &&
  finiteOpt st.averageWin && finiteOpt st.averageLoss && finiteOpt st.endEquity

lemma getNumber_finite (parseFloatFn : String → JsNum) (val : JsVal) :
    jsIsFinite (getNumber parseFloatFn val) = true := by
  unfold getNumber
  cases val with
  | num n => cases n <;> simp [jsIsNaN, jsIsFinite]
  | str s2 => cases hpf : parseFloatFn s2 <;> simp [jsIsNaN, jsIsFinite, hpf]
  | undef => rfl
  | nullv => rfl
  | other => rfl

lemma getNumberOrNull_finite (parseFloatFn : String → JsNum) (val : JsVal) :
    finiteOpt (getNumberOrNull parseFloatFn val) = true := by
  unfold getNumberOrNull
  cases val with
  | num n => cases n <;> simp [jsIsNaN, jsIsFinite, finiteOpt]
  | str s2 => cases hpf : parseFloatFn s2 <;> simp [jsIsNaN, jsIsFinite, finiteOpt, hpf]
  | undef => rfl
  | nullv => rfl
  | other => rfl

/-- An optional statistic carries no NaN. -/
def noNaNOpt : Option JsNum → Bool
  | none => true
  | some n => !jsIsNaN n

/-- Every statistic slot of the record is NaN-free. -/
def statsNoNaN (st : ExtendedStatistics) : Bool :=
  !jsIsNaN st.netProfit && !jsIsNaN st.sharpe && !jsIsNaN st.cagr &&
  !jsIsNaN st.drawdown && !jsIsNaN st.totalTrades && !jsIsNaN st.winRate &&
  !jsIsNaN st.totalWins && !jsIsNaN st.totalLosses && !jsIsNaN st.profitLoss &&
  noNaNOpt st.alpha && noNaNOpt st.beta && noNaNOpt st.sortino &&
  noNaNOpt st.treynor && noNaNOpt st.information && noNaNOpt st.trackingError &&
  noNaNOpt st.annualStdDev && noNaNOpt st.annualVariance && noNaNOpt st.totalFees &&
  noNaNOpt st.averageWin && noNaNOpt st.averageLoss && noNaNOpt st.endEquity

/-- Every statistic slot the source does not scale to percent is finite
(required) or null-or-finite (optional). -/
def statsUnscaledFinite (st : ExtendedStatistics) : Bool :=
  jsIsFinite st.sharpe && jsIsFinite st.totalTrades && jsIsFinite st.winRate &&
  jsIsFinite st.totalWins && jsIsFinite st.totalLosses && jsIsFinite st.profitLoss &&
  finiteOpt st.beta && finiteOpt st.sortino && finiteOpt st.treynor &&
  finiteOpt st.information && finiteOpt st.annualVariance && finiteOpt st.totalFees &&
  finiteOpt st.averageWin && finiteOpt st.averageLoss && finiteOpt st.endEquity

lemma not_nan_of_finite {n : JsNum} (h : jsIsFinite n = true) : jsIsNaN n = false := by
  cases n with
  | fin q => rfl
  | nan => cases h
  | posInf => cases h
  | negInf => cases h

lemma getNumber_not_nan (parseFloatFn : String → JsNum) (val : JsVal) :
    jsIsNaN (getNumber parseFloatFn val) = false :=
  not_nan_of_finite (getNumber_finite parseFloatFn val)

lemma jsTimes100_fin_not_nan (q : Rat) :
    jsIsNaN (jsTimes100 (JsNum.fin q)) = false := by
  unfold jsTimes100
  dsimp only
  by_cases h1 : overflowBound ≤ q * 100
  · rw [if_pos h1]
    rfl
  · rw [if_neg h1]
    by_cases h2 : q * 100 ≤ -overflowBound
    · rw [if_pos h2]
      rfl
    · rw [if_neg h2]
      rfl

lemma toPercent_not_nan (parseFloatFn : String → JsNum) (val : JsVal) :
    jsIsNaN (toPercent parseFloatFn val) = false := by
  unfold toPercent
  have h := getNumber_finite parseFloatFn val
  cases hn : getNumber parseFloatFn val with
  | fin q => exact jsTimes100_fin_not_nan q
  | nan => rw [hn] at h; cases h
  | posInf => rw [hn] at h; cases h
  | negInf => rw [hn] at h; cases h

lemma getNumberOrNull_not_nan (parseFloatFn : String → JsNum) (val : JsVal) :
    noNaNOpt (getNumberOrNull parseFloatFn val) = true := by
  have h := getNumberOrNull_finite parseFloatFn val
  cases hn : getNumberOrNull parseFloatFn val with
  | none => rfl
  | some n =>
    rw [hn] at h
    have h2 : jsIsNaN n = false := not_nan_of_finite h
    show (!jsIsNaN n) = true
    rw [h2]
    rfl

lemma toPercentOrNull_not_nan (parseFloatFn : String → JsNum) (val : JsVal) :
    noNaNOpt (toPercentOrNull parseFloatFn val) = true := by
  unfold toPercentOrNull
  have h := getNumberOrNull_finite parseFloatFn val
  cases hn : getNumberOrNull parseFloatFn val with
  | none => rfl
  | some n =>
    rw [hn] at h
    cases n with
    | fin q =>
      show (!jsIsNaN (jsTimes100 (JsNum.fin q))) = true
      rw [jsTimes100_fin_not_nan q]
      rfl
    | nan => cases h
    | posInf => cases h
    | negInf => cases h

/-- Counterexample to C10 as stated: a parse result of 1e307 is finite and
passes the isNaN/isFinite guard of the extraction, yet `toPercent` multiplies
it by 100 in double arithmetic, which overflows — the netProfit stored on the
job record is Infinity, so not every stored statistic is finite. -/
theorem claim10_counterexample :
    jsIsFinite (getNumber (fun _ => JsNum.fin (10 ^ 307)) (JsVal.str "1e307")) = true
    ∧ (extractStatistics (fun _ => JsNum.fin (10 ^ 307))
        (fun _ => JsVal.str "1e307") (fun _ => JsVal.undef)).netProfit = JsNum.posInf
    ∧ statsAllFinite (extractStatistics (fun _ => JsNum.fin (10 ^ 307))
        (fun _ => JsVal.str "1e307") (fun _ => JsVal.undef)) = false := by
  have hcmp : overflowBound ≤ (10 ^ 307 : Rat) * 100 := by
    unfold overflowBound
    norm_num
  have hnet : (extractStatistics (fun _ => JsNum.fin (10 ^ 307))
      (fun _ => JsVal.str "1e307") (fun _ => JsVal.undef)).netProfit = JsNum.posInf := by
    show jsTimes100 (getNumber (fun _ => JsNum.fin (10 ^ 307)) (JsVal.str "1e307")) =
      JsNum.posInf
    have hg : getNumber (fun _ => JsNum.fin (10 ^ 307)) (JsVal.str "1e307") =
        JsNum.fin (10 ^ 307) := rfl
    rw [hg]
    unfold jsTimes100
    dsimp only
    rw [if_pos hcmp]
  refine ⟨rfl, hnet, ?_⟩
  unfold statsAllFinite
  rw [hnet]
  rfl

/-- C10 (amended): for every possible parseFloat behavior and every shape of
the parsed result artifact, no NaN ever reaches the job record; every
statistic not scaled to percent is finite (defaulting to 0) or null; and the
percent scaling keeps a value finite whenever its product with 100 stays
strictly inside the double overflow bound — only such an overflow (as in the
counterexample) can put an infinity in a scaled slot. -/
theorem claim10_statistics_nan_free (parseFloatFn : String → JsNum)
    (portfolioStats tradeStats : String → JsVal) :
    statsNoNaN (extractStatistics parseFloatFn portfolioStats tradeStats) = true
    ∧ statsUnscaledFinite (extractStatistics parseFloatFn portfolioStats tradeStats) = true
    ∧ (∀ q : Rat, -overflowBound < q * 100 → q * 100 < overflowBound →
        jsTimes100 (JsNum.fin q) = JsNum.fin (q * 100)) := by
  refine ⟨?_, ?_, ?_⟩
  · unfold statsNoNaN extractStatistics
    simp only [getNumber_not_nan, toPercent_not_nan, toPercentOrNull_not_nan,
      getNumberOrNull_not_nan, Bool.not_false, Bool.and_self, Bool.and_true,
      Bool.true_and]
  · unfold statsUnscaledFinite extractStatistics
    simp only [getNumber_finite, getNumberOrNull_finite, Bool.and_self,
      Bool.and_true, Bool.true_and]
  · intro q h1 h2
    unfold jsTimes100
    dsimp only
    rw [if_neg (not_le.mpr h2), if_neg (not_le.mpr h1)]

/-- Witness for the amended C10: 5 scaled to percent stays finite (500), and
a record built from nulls is NaN-free. -/
theorem claim10_witness :
    (-overflowBound < (5 : Rat) * 100 ∧ (5 : Rat) * 100 < overflowBound)
    ∧ jsTimes100 (JsNum.fin 5) = JsNum.fin ((5 : Rat) * 100)
    ∧ statsNoNaN (extractStatistics (fun _ => JsNum.nan) (fun _ => JsVal.nullv)
        (fun _ => JsVal.nullv)) = true := by
  have h1 : -overflowBound < (5 : Rat) * 100 := by
    unfold overflowBound
    norm_num
  have h2 : (5 : Rat) * 100 < overflowBound := by
    unfold overflowBound
    norm_num
  exact ⟨⟨h1, h2⟩,
    (claim10_statistics_nan_free (fun _ => JsNum.nan) (fun _ => JsVal.nullv)
      (fun _ => JsVal.nullv)).2.2 5 h1 h2,
    (claim10_statistics_nan_free (fun _ => JsNum.nan) (fun _ => JsVal.nullv)
      (fun _ => JsVal.nullv)).1⟩

/- ### Orchestrator effect traces (runLeanBacktest / processBacktest)

The orchestrator is embedded as a pure function from an oracle — the
outcomes of its awaited, fallible steps — to the ordered list of observable
side effects it performs, plus its outcome (`Except.error` is a thrown
exception, `.ok true/false` the returned success flag; the text of failure
messages is abstracted). The docker-run promise is resolved by both its
close and error handlers and never rejects, so it yields an exit code, never
a throw, and nothing can be thrown between starting the result poller and
stopping it. -/

/-- Observable side effects of processing one backtest job, in program
order. -/
inductive Action where
  | createUsage
  | linkUsage
  | statusRunning
  | markUsageRunning
  | fetchCredentials
  | queryFiles
  | updateProgress (p : Nat)
  | mkWorkspace
  | ensureStaticData
  | writeAlgoFiles
  | ensureCache
  | allocStreamingPort (res : Option Nat)
  | openZmqSocket (port : Nat)
  | writeConfig
  | startPoller
  | runDocker (exitCode : Nat)
  | stopPoller
  | closeZmqSocket
  | releaseStreamingPort (port : Nat)
  | removeWorkspace
  | keepWorkspace
  | statusError (msg : String)
  | statusCompleted
  | completeUsage (ok : Bool)
deriving DecidableEq

/-- Environment outcomes of one `runLeanBacktest` execution: which awaited
steps throw, whether chart streaming is requested, what the port allocator
returns (`Except.error` models the allocator round-trip itself throwing),
the engine exit code, whether the result artifact parses, and the
LEAN_KEEP_TEMP debug flag. -/
structure RunOracle where
  mkdirThrows : Bool
  staticDataThrows : Bool
  progressThrows : Nat → Bool
  writeFilesThrows : Bool
  useBrokerageData : Bool
  ensureCacheThrows : Bool
  wantChartUpdates : Bool
  allocPortOutcome : Except Unit (Option Nat)
  zmqThrows : Bool
  writeConfigThrows : Bool
  dockerExitCode : Nat
  parseResultsOk : Bool
  keepTemp : Bool

/-- Tail of the try block from the progress(45) checkpoint: write the LEAN
config, start the result poller when chart updates were requested, await the
docker process, stop the poller, and classify the outcome. The poller is
started and stopped with no fallible await between them. -/
def runLeanFinish (o : RunOracle) (t : List Action) (port : Option Nat) (zmq : Bool) :
    List Action × Option Nat × Bool × Except String Bool :=
  if o.progressThrows 45 then
    (t ++ [Action.updateProgress 45], port, zmq, Except.error "progress update failed")
  else if o.writeConfigThrows then
    (t ++ [Action.updateProgress 45, Action.writeConfig], port, zmq,
      Except.error "config write failed")
  else if o.progressThrows 50 then
    (t ++ [Action.updateProgress 45, Action.writeConfig, Action.updateProgress 50],
      port, zmq, Except.error "progress update failed")
  else
    (t ++ ([Action.updateProgress 45, Action.writeConfig, Action.updateProgress 50] ++
      ((if o.wantChartUpdates then [Action.startPoller] else []) ++
        ([Action.runDocker o.dockerExitCode] ++
          ((if o.wantChartUpdates then [Action.stopPoller] else []) ++
            [Action.updateProgress 90])))),
      port, zmq,
      if o.progressThrows 90 then Except.error "progress update failed"
      else if o.dockerExitCode ≠ 0 then Except.ok false
      else if o.parseResultsOk then Except.ok true
      else Except.ok false)

/-- Streaming setup of the try block: when chart updates are requested,
allocate a streaming port; on a granted port open the ZeroMQ subscriber
(which may itself throw after the port was taken); allocation exhaustion
(`none`) proceeds without streaming. -/
def runLeanStreamSetup (o : RunOracle) (t : List Action) :
    List Action × Option Nat × Bool × Except String Bool :=
  if o.wantChartUpdates then
    match o.allocPortOutcome with
    | Except.error _ => (t, none, false, Except.error "port allocation failed")
    | Except.ok none =>
      runLeanFinish o (t ++ [Action.allocStreamingPort none]) none false
    | Except.ok (some p) =>
      if o.zmqThrows then
        (t ++ [Action.allocStreamingPort (some p)], some p, false,
          Except.error "zmq subscriber failed")
      else
        runLeanFinish o
          (t ++ [Action.allocStreamingPort (some p), Action.openZmqSocket p])
          (some p) true
  else
    runLeanFinish o t none false

/-- The whole try block of `runLeanBacktest`: workspace creation, static
data, algorithm files, the data step (skipped when LEAN fetches from the
brokerage), then streaming setup and the finish. Returns the effect trace,
the streaming port and socket state at exit, and the outcome. -/
def runLeanTry (o : RunOracle) : List Action × Option Nat × Bool × Except String Bool :=
  if o.mkdirThrows then
    ([Action.mkWorkspace], none, false, Except.error "mkdir failed")
  else if o.staticDataThrows then
    ([Action.mkWorkspace, Action.ensureStaticData], none, false,
      Except.error "static data failed")
  else if o.progressThrows 15 then
    ([Action.mkWorkspace, Action.ensureStaticData, Action.updateProgress 15],
      none, false, Except.error "progress update failed")
  else if o.writeFilesThrows then
    ([Action.mkWorkspace, Action.ensureStaticData, Action.updateProgress 15,
      Action.writeAlgoFiles], none, false, Except.error "algorithm write failed")
  else if o.progressThrows 20 then
    ([Action.mkWorkspace, Action.ensureStaticData, Action.updateProgress 15,
      Action.writeAlgoFiles, Action.updateProgress 20], none, false,
      Except.error "progress update failed")
  else if o.useBrokerageData then
    if o.progressThrows 40 then
      ([Action.mkWorkspace, Action.ensureStaticData, Action.updateProgress 15,
        Action.writeAlgoFiles, Action.updateProgress 20, Action.updateProgress 40],
        none, false, Except.error "progress update failed")
    else
      runLeanStreamSetup o
        [Action.mkWorkspace, Action.ensureStaticData, Action.updateProgress 15,
          Action.writeAlgoFiles, Action.updateProgress 20, Action.updateProgress 40]
  else if o.ensureCacheThrows then
    ([Action.mkWorkspace, Action.ensureStaticData, Action.updateProgress 15,
      Action.writeAlgoFiles, Action.updateProgress 20, Action.ensureCache],
      none, false, Except.error "cache failed")
  else if o.progressThrows 40 then
    ([Action.mkWorkspace, Action.ensureStaticData, Action.updateProgress 15,
      Action.writeAlgoFiles, Action.updateProgress 20, Action.ensureCache,
      Action.updateProgress 40], none, false, Except.error "progress update failed")
  else
    runLeanStreamSetup o
      [Action.mkWorkspace, Action.ensureStaticData, Action.updateProgress 15,
        Action.writeAlgoFiles, Action.updateProgress 20, Action.ensureCache,
        Action.updateProgress 40]

/-- The guaranteed-cleanup block (the `finally`): close the ZeroMQ socket if
one was opened, release the streaming port if one was taken, and remove the
workspace (removal errors are swallowed) unless the LEAN_KEEP_TEMP retain
flag is set, in which case the workspace is kept. -/
def finallyActs (port : Option Nat) (zmq : Bool) (keepTemp : Bool) : List Action :=
  (if zmq then [Action.closeZmqSocket] else []) ++
  ((match port with
    | some p => [Action.releaseStreamingPort p]
    | none => []) ++
  (if keepTemp then [Action.keepWorkspace] else [Action.removeWorkspace]))

/-- Embedding of `runLeanBacktest`: the try block followed unconditionally by
the cleanup block, whatever the outcome. -/
def runLeanBacktest (o : RunOracle) : List Action × Except String Bool :=
  match runLeanTry o with
  | (t, port, zmq, outcome) => (t ++ finallyActs port zmq o.keepTemp, outcome)

lemma runLeanFinish_spec (o : RunOracle) (t : List Action) (port : Option Nat)
    (zmq : Bool) :
    ∃ d outc, runLeanFinish o t port zmq = (t ++ d, port, zmq, outc)
      ∧ (Action.startPoller ∈ d → Action.stopPoller ∈ d)
      ∧ (∀ q, Action.allocStreamingPort q ∉ d)
      ∧ Action.removeWorkspace ∉ d
      ∧ Action.keepWorkspace ∉ d := by
  unfold runLeanFinish
  by_cases h45 : o.progressThrows 45 = true
  · rw [if_pos h45]
    exact ⟨_, _, rfl, by simp, by simp, by simp, by simp⟩
  · rw [if_neg h45]
    by_cases hcw : o.writeConfigThrows = true
    · rw [if_pos hcw]
      exact ⟨_, _, rfl, by simp, by simp, by simp, by simp⟩
    · rw [if_neg hcw]
      by_cases h50 : o.progressThrows 50 = true
      · rw [if_pos h50]
        exact ⟨_, _, rfl, by simp, by simp, by simp, by simp⟩
      · rw [if_neg h50]
        cases hwant : o.wantChartUpdates
        · exact ⟨_, _, rfl, by simp, by simp, by simp, by simp⟩
        · exact ⟨_, _, rfl, by simp, by simp, by simp, by simp⟩

lemma runLeanStreamSetup_spec (o : RunOracle) (t : List Action) :
    ∃ d port zmq outc, runLeanStreamSetup o t = (t ++ d, port, zmq, outc)
      ∧ (∀ p, Action.allocStreamingPort (some p) ∈ d → port = some p)
      ∧ (Action.startPoller ∈ d → Action.stopPoller ∈ d)
      ∧ Action.removeWorkspace ∉ d
      ∧ Action.keepWorkspace ∉ d := by
  unfold runLeanStreamSetup
  cases hwant : o.wantChartUpdates
  · rw [if_neg (by simp [hwant])]
    obtain ⟨d, outc, heq, hsp, hna, hnr, hnk⟩ := runLeanFinish_spec o t none false
    exact ⟨d, none, false, outc, heq, fun p hp => absurd hp (hna (some p)), hsp, hnr, hnk⟩
  · rw [if_pos (by simp [hwant])]
    cases halloc : o.allocPortOutcome with
    | error e =>
      refine ⟨[], none, false, Except.error "port allocation failed", by simp, ?_, ?_, ?_, ?_⟩
        <;> simp
    | ok res =>
      cases res with
      | none =>
        obtain ⟨d, outc, heq, hsp, hna, hnr, hnk⟩ :=
          runLeanFinish_spec o (t ++ [Action.allocStreamingPort none]) none false
        refine ⟨[Action.allocStreamingPort none] ++ d, none, false, outc, ?_, ?_, ?_, ?_, ?_⟩
        · rw [heq, List.append_assoc]
        · intro p hp
          rcases List.mem_append.mp hp with hp | hp
          · simp at hp
          · exact absurd hp (hna (some p))
        · intro hs
          rcases List.mem_append.mp hs with hs | hs
          · simp at hs
          · exact List.mem_append_right _ (hsp hs)
        · intro hs
          rcases List.mem_append.mp hs with hs | hs
          · simp at hs
          · exact hnr hs
        · intro hs
          rcases List.mem_append.mp hs with hs | hs
          · simp at hs
          · exact hnk hs
      | some p =>
        dsimp only
        by_cases hz : o.zmqThrows = true
        · rw [if_pos hz]
          refine ⟨[Action.allocStreamingPort (some p)], some p, false,
            Except.error "zmq subscriber failed", rfl, ?_, ?_, ?_, ?_⟩
          · intro p2 hp2
            simp at hp2
            rw [hp2]
          · intro hs; simp at hs
          · simp
          · simp
        · rw [if_neg hz]
          obtain ⟨d, outc, heq, hsp, hna, hnr, hnk⟩ :=
            runLeanFinish_spec o
              (t ++ [Action.allocStreamingPort (some p), Action.openZmqSocket p])
              (some p) true
          refine ⟨[Action.allocStreamingPort (some p), Action.openZmqSocket p] ++ d,
            some p, true, outc, ?_, ?_, ?_, ?_, ?_⟩
          · rw [heq, List.append_assoc]
          · intro p2 hp2
            rcases List.mem_append.mp hp2 with hp2 | hp2
            · simp at hp2
              rw [hp2]
            · exact absurd hp2 (hna (some p2))
          · intro hs
            rcases List.mem_append.mp hs with hs | hs
            · simp at hs
            · exact List.mem_append_right _ (hsp hs)
          · intro hs
            rcases List.mem_append.mp hs with hs | hs
            · simp at hs
            · exact hnr hs
          · intro hs
            rcases List.mem_append.mp hs with hs | hs
            · simp at hs
            · exact hnk hs

lemma runLeanTry_spec (o : RunOracle) :
    ∃ tr port zmq outc, runLeanTry o = (tr, port, zmq, outc)
      ∧ (∀ p, Action.allocStreamingPort (some p) ∈ tr → port = some p)
      ∧ (Action.startPoller ∈ tr → Action.stopPoller ∈ tr)
      ∧ Action.removeWorkspace ∉ tr
      ∧ Action.keepWorkspace ∉ tr := by
  unfold runLeanTry
  by_cases h1 : o.mkdirThrows = true
  · rw [if_pos h1]
    refine ⟨_, none, false, _, rfl, ?_, ?_, ?_, ?_⟩ <;> simp
  rw [if_neg h1]
  by_cases h2 : o.staticDataThrows = true
  · rw [if_pos h2]
    refine ⟨_, none, false, _, rfl, ?_, ?_, ?_, ?_⟩ <;> simp
  rw [if_neg h2]
  by_cases h3 : o.progressThrows 15 = true
  · rw [if_pos h3]
    refine ⟨_, none, false, _, rfl, ?_, ?_, ?_, ?_⟩ <;> simp
  rw [if_neg h3]
  by_cases h4 : o.writeFilesThrows = true
  · rw [if_pos h4]
    refine ⟨_, none, false, _, rfl, ?_, ?_, ?_, ?_⟩ <;> simp
  rw [if_neg h4]
  by_cases h5 : o.progressThrows 20 = true
  · rw [if_pos h5]
    refine ⟨_, none, false, _, rfl, ?_, ?_, ?_, ?_⟩ <;> simp
  rw [if_neg h5]
  by_cases h6 : o.useBrokerageData = true
  · rw [if_pos h6]
    by_cases h7 : o.progressThrows 40 = true
    · rw [if_pos h7]
      refine ⟨_, none, false, _, rfl, ?_, ?_, ?_, ?_⟩ <;> simp
    rw [if_neg h7]
    obtain ⟨d, port, zmq, outc, heq, halloc, hsp, hnr, hnk⟩ :=
      runLeanStreamSetup_spec o
        [Action.mkWorkspace, Action.ensureStaticData, Action.updateProgress 15,
          Action.writeAlgoFiles, Action.updateProgress 20, Action.updateProgress 40]
    refine ⟨_, port, zmq, outc, heq, ?_, ?_, ?_, ?_⟩
    · intro p hp
      rcases List.mem_append.mp hp with hp | hp
      · simp at hp
      · exact halloc p hp
    · intro hs
      rcases List.mem_append.mp hs with hs | hs
      · simp at hs
      · exact List.mem_append_right _ (hsp hs)
    · intro hs
      rcases List.mem_append.mp hs with hs | hs
      · simp at hs
      · exact hnr hs
    · intro hs
      rcases List.mem_append.mp hs with hs | hs
      · simp at hs
      · exact hnk hs
  rw [if_neg h6]
  by_cases h8 : o.ensureCacheThrows = true
  · rw [if_pos h8]
    refine ⟨_, none, false, _, rfl, ?_, ?_, ?_, ?_⟩ <;> simp
  rw [if_neg h8]
  by_cases h9 : o.progressThrows 40 = true
  · rw [if_pos h9]
    refine ⟨_, none, false, _, rfl, ?_, ?_, ?_, ?_⟩ <;> simp
  rw [if_neg h9]
  obtain ⟨d, port, zmq, outc, heq, halloc, hsp, hnr, hnk⟩ :=
    runLeanStreamSetup_spec o
      [Action.mkWorkspace, Action.ensureStaticData, Action.updateProgress 15,
        Action.writeAlgoFiles, Action.updateProgress 20, Action.ensureCache,
        Action.updateProgress 40]
  refine ⟨_, port, zmq, outc, heq, ?_, ?_, ?_, ?_⟩
  · intro p hp
    rcases List.mem_append.mp hp with hp | hp
    · simp at hp
    · exact halloc p hp
  · intro hs
    rcases List.mem_append.mp hs with hs | hs
    · simp at hs
    · exact List.mem_append_right _ (hsp hs)
  · intro hs
    rcases List.mem_append.mp hs with hs | hs
    · simp at hs
    · exact hnr hs
  · intro hs
    rcases List.mem_append.mp hs with hs | hs
    · simp at hs
    · exact hnk hs

lemma finallyActs_release (port : Option Nat) (zmq : Bool) (keepTemp : Bool) (p : Nat)
    (h : port = some p) :
    Action.releaseStreamingPort p ∈ finallyActs port zmq keepTemp := by
  subst h
  unfold finallyActs
  cases zmq <;> cases keepTemp <;> simp

lemma finallyActs_members (port : Option Nat) (zmq : Bool) (keepTemp : Bool) (a : Action)
    (h : a ∈ finallyActs port zmq keepTemp) :
    a = Action.closeZmqSocket ∨ (∃ p, a = Action.releaseStreamingPort p)
      ∨ a = Action.keepWorkspace ∨ a = Action.removeWorkspace := by
  unfold finallyActs at h
  rcases List.mem_append.mp h with h | h
  · cases zmq
    · simp at h
    · simp at h
      exact Or.inl h
  · rcases List.mem_append.mp h with h | h
    · cases port with
      | none => simp at h
      | some p =>
        simp at h
        exact Or.inr (Or.inl ⟨p, h⟩)
    · cases keepTemp
      · simp at h
        exact Or.inr (Or.inr (Or.inr h))
      · simp at h
        exact Or.inr (Or.inr (Or.inl h))

lemma finallyActs_workspace (port : Option Nat) (zmq : Bool) :
    (Action.removeWorkspace ∈ finallyActs port zmq false
      ∧ Action.keepWorkspace ∉ finallyActs port zmq false)
    ∧ (Action.keepWorkspace ∈ finallyActs port zmq true
      ∧ Action.removeWorkspace ∉ finallyActs port zmq true) := by
  unfold finallyActs
  cases zmq <;> cases port <;> simp

/-- C7: whatever the oracle outcomes — success, a thrown error after setup,
engine failure or parse failure — the cleanup guarantees hold of the full
effect trace of `runLeanBacktest`: a granted streaming port is released, a
started result poller is stopped, and the ephemeral workspace is removed
exactly when the LEAN_KEEP_TEMP retain flag is not set (otherwise kept). -/
theorem claim7_guaranteed_cleanup (o : RunOracle) :
    (∀ p, Action.allocStreamingPort (some p) ∈ (runLeanBacktest o).1 →
      Action.releaseStreamingPort p ∈ (runLeanBacktest o).1)
    ∧ (Action.startPoller ∈ (runLeanBacktest o).1 →
        Action.stopPoller ∈ (runLeanBacktest o).1)
    ∧ (o.keepTemp = false → Action.removeWorkspace ∈ (runLeanBacktest o).1
        ∧ Action.keepWorkspace ∉ (runLeanBacktest o).1)
    ∧ (o.keepTemp = true → Action.keepWorkspace ∈ (runLeanBacktest o).1
        ∧ Action.removeWorkspace ∉ (runLeanBacktest o).1) := by
  obtain ⟨tr, port, zmq, outc, heq, halloc, hsp, hnr, hnk⟩ := runLeanTry_spec o
  have hrun : runLeanBacktest o = (tr ++ finallyActs port zmq o.keepTemp, outc) := by
    unfold runLeanBacktest
    rw [heq]
  rw [hrun]
  refine ⟨?_, ?_, ?_, ?_⟩
  · intro p hp
    have hport : port = some p := by
      rcases List.mem_append.mp hp with hp | hp
      · exact halloc p hp
      · rcases finallyActs_members port zmq o.keepTemp _ hp with h | ⟨q, h⟩ | h | h
          <;> cases h
    exact List.mem_append_right _ (finallyActs_release port zmq o.keepTemp p hport)
  · intro hs
    have hs2 : Action.startPoller ∈ tr := by
      rcases List.mem_append.mp hs with hs | hs
      · exact hs
      · rcases finallyActs_members port zmq o.keepTemp _ hs with h | ⟨q, h⟩ | h | h
          <;> cases h
    exact List.mem_append_left _ (hsp hs2)
  · intro hk
    rw [hk]
    refine ⟨List.mem_append_right _ ((finallyActs_workspace port zmq).1.1), ?_⟩
    intro hs
    rcases List.mem_append.mp hs with hs | hs
    · exact hnk hs
    · exact (finallyActs_workspace port zmq).1.2 hs
  · intro hk
    rw [hk]
    refine ⟨List.mem_append_right _ ((finallyActs_workspace port zmq).2.1), ?_⟩
    intro hs
    rcases List.mem_append.mp hs with hs | hs
    · exact hnr hs
    · exact (finallyActs_workspace port zmq).2.2 hs

/-- Witness for C7 at a concrete oracle: streaming requested, port 5680
granted, engine exits 0, results parse, retain flag unset — the trace
releases port 5680, stops the poller, and removes the workspace. -/
theorem claim7_witness :
    (Action.allocStreamingPort (some 5680) ∈
        (runLeanBacktest ⟨false, false, fun _ => false, false, true, false, true,
          Except.ok (some 5680), false, false, 0, true, false⟩).1 →
      Action.releaseStreamingPort 5680 ∈
        (runLeanBacktest ⟨false, false, fun _ => false, false, true, false, true,
          Except.ok (some 5680), false, false, 0, true, false⟩).1)
    ∧ (Action.startPoller ∈
        (runLeanBacktest ⟨false, false, fun _ => false, false, true, false, true,
          Except.ok (some 5680), false, false, 0, true, false⟩).1 →
      Action.stopPoller ∈
        (runLeanBacktest ⟨false, false, fun _ => false, false, true, false, true,
          Except.ok (some 5680), false, false, 0, true, false⟩).1)
    ∧ (Action.removeWorkspace ∈
        (runLeanBacktest ⟨false, false, fun _ => false, false, true, false, true,
          Except.ok (some 5680), false, false, 0, true, false⟩).1
      ∧ Action.keepWorkspace ∉
        (runLeanBacktest ⟨false, false, fun _ => false, false, true, false, true,
          Except.ok (some 5680), false, false, 0, true, false⟩).1) := by
  have h := claim7_guaranteed_cleanup ⟨false, false, fun _ => false, false, true, false,
    true, Except.ok (some 5680), false, false, 0, true, false⟩
  exact ⟨h.1 5680, h.2.1, h.2.2.1 rfl⟩

/-- The exact message of the error thrown when the job owner has no usable
data-provider credentials. -/
def brokerNotConnectedMsg : String :=
  "BROKER_NOT_CONNECTED: Please connect a broker (e.g., Alpaca) in Settings  API Keys before running backtests. This is required for market data access."

/-- Environment outcomes of one `processBacktest` execution: whether creating
the usage record throws (caught and non-fatal), the resolved brokerage
credentials (`none` when no usable provider credentials exist), whether
main.py is found, and the oracle of the inner engine run. -/
structure ProcOracle where
  usageCreateThrows : Bool
  credentials : Option Unit
  mainFileFound : Bool
  run : RunOracle

/-- Embedding of `processBacktest`: usage-record creation (failure logged and
processing continues without tracking), transition to running, credential
resolution with fast-fail throw on none, file query, symbol and date
extraction (pure), progress updates, the engine run, and the terminal status
transition; the outer catch records the thrown message on the job and closes
the usage record. -/
def processBacktest (o : ProcOracle) : List Action :=
  (if o.usageCreateThrows then [Action.createUsage]
    else [Action.createUsage, Action.linkUsage]) ++
  ([Action.statusRunning] ++
  ((if o.usageCreateThrows then [] else [Action.markUsageRunning]) ++
  ([Action.fetchCredentials] ++
  (match o.credentials with
    | none =>
      [Action.statusError brokerNotConnectedMsg] ++
        (if o.usageCreateThrows then [] else [Action.completeUsage false])
    | some _ =>
      [Action.queryFiles] ++
      (if o.mainFileFound = false then
        [Action.statusError "main.py not found"] ++
          (if o.usageCreateThrows then [] else [Action.completeUsage false])
      else
        [Action.updateProgress 5, Action.updateProgress 10] ++
        (match runLeanBacktest o.run with
          | (tr, Except.error msg) =>
            tr ++ ([Action.statusError msg] ++
              (if o.usageCreateThrows then [] else [Action.completeUsage false]))
          | (tr, Except.ok false) =>
            tr ++ ([Action.updateProgress 95,
              Action.statusError "Backtest failed"] ++
              (if o.usageCreateThrows then [] else [Action.completeUsage false]))
          | (tr, Except.ok true) =>
            tr ++ ([Action.updateProgress 95, Action.statusCompleted] ++
              (if o.usageCreateThrows then [] else [Action.completeUsage true]))))))))

/-- The job-status transitions contained in an effect trace, in order. -/
def statusTrace (tr : List Action) : List Action :=
  tr.filter (fun a => match a with
    | Action.statusRunning => true
    | Action.statusError _ => true
    | Action.statusCompleted => true
    | _ => false)

/-- C6: when the job owner has no usable data-provider credentials, the job
transitions queued-to-running-to-Error with the BROKER_NOT_CONNECTED reason
and nothing else: no workspace directory is ever created, and the job never
completes — a deterministic fast-fail. -/
theorem claim6_no_credentials_fast_fail (o : ProcOracle) (h : o.credentials = none) :
    statusTrace (processBacktest o) =
      [Action.statusRunning, Action.statusError brokerNotConnectedMsg]
    ∧ Action.mkWorkspace ∉ processBacktest o
    ∧ Action.statusCompleted ∉ processBacktest o := by
  unfold processBacktest
  rw [h]
  cases hu : o.usageCreateThrows
  · refine ⟨?_, ?_, ?_⟩ <;> simp [statusTrace]
  · refine ⟨?_, ?_, ?_⟩ <;> simp [statusTrace]

/-- Witness for C6: a concrete jobless-credentials oracle; the status history
is exactly running then the broker error. -/
theorem claim6_witness :
    statusTrace (processBacktest ⟨false, none, true,
        ⟨false, false, fun _ => false, false, true, false, false,
          Except.ok none, false, false, 0, true, false⟩⟩) =
      [Action.statusRunning, Action.statusError brokerNotConnectedMsg]
    ∧ Action.mkWorkspace ∉ processBacktest ⟨false, none, true,
        ⟨false, false, fun _ => false, false, true, false, false,
          Except.ok none, false, false, 0, true, false⟩⟩
    ∧ Action.statusCompleted ∉ processBacktest ⟨false, none, true,
        ⟨false, false, fun _ => false, false, true, false, false,
          Except.ok none, false, false, 0, true, false⟩⟩ :=
  claim6_no_credentials_fast_fail
    ⟨false, none, true,
      ⟨false, false, fun _ => false, false, true, false, false,
        Except.ok none, false, false, 0, true, false⟩⟩ rfl

end Aegra
